import Mathlib

/-!
Verification of the `lsql` query pipeline (`src/lsql/ast.py`, `src/lsql/parser.py`)
against its natural-language specification.

The development shallowly embeds the Python source:

* Python runtime values become the inductive `Lsql.Value`; Python floats are
  modelled as exact rationals (no claim below depends on IEEE rounding).
* Python's 2.x comparison protocol, as exercised by the code (including the
  `Null` singleton's `total_ordering` methods from `ast.py:213-234`), becomes
  the executable functions `pyEq`, `pyLt`, `pyLe`, `pyGt`, `pyGe`.
* Fallible Python operations (TypeError, KeyError, ZeroDivisionError, ...)
  return `Option`/`Except`.

Definitions follow the Python source, file and line references are given at
each definition.
-/

namespace Lsql

/-- Runtime values of the evaluator.  `null` is the `NULL` singleton of
`ast.py:234`; `inf` models the Python float `float('inf')` used as the default
`LIMIT` (`ast.py:853`); `rat` models Python floats as exact rationals. -/
inductive Value where
  | null
  | int (n : Int)
  | rat (q : ℚ)
  | str (s : String)
  | bool (b : Bool)
  | inf
  | list (elems : List Value)
deriving Repr

/-- The Python identity test `value is NULL` used throughout `ast.py`. -/
def isNull : Value → Bool
  | .null => true
  | _ => false

/-- Numeric values (Python numbers: bool is an int subtype in Python 2). -/
def isNum : Value → Bool
  | .int _ => true
  | .rat _ => true
  | .bool _ => true
  | .inf => true
  | _ => false

/-- The rational magnitude of a finite numeric value (`inf` is guarded
separately wherever it matters). -/
def ratOf : Value → ℚ
  | .int n => (n : ℚ)
  | .rat q => q
  | .bool b => if b then 1 else 0
  | _ => 0

/-- Python int-like values (int and bool); arithmetic on these stays integral. -/
def intLike : Value → Option Int
  | .int n => some n
  | .bool b => some (if b then 1 else 0)
  | _ => none

mutual
/-- Python `==` on the value domain used by the program: `Null.__eq__` is the
identity test (`ast.py:230-231`), numbers compare across int/float/bool,
strings and lists structurally. -/
def pyEq : Value → Value → Bool
  | .null, .null => true
  | .null, _ => false
  | _, .null => false
  | .inf, .inf => true
  | .inf, _ => false
  | _, .inf => false
  | .int a, .int b => a == b
  | .int a, .rat b => (a : ℚ) == b
  | .rat a, .int b => a == (b : ℚ)
  | .rat a, .rat b => a == b
  | .int a, .bool b => a == (if b then 1 else 0)
  | .bool a, .int b => (if a then (1 : Int) else 0) == b
  | .rat a, .bool b => a == (if b then (1 : ℚ) else 0)
  | .bool a, .rat b => (if a then (1 : ℚ) else 0) == b
  | .bool a, .bool b => a == b
  | .str a, .str b => a == b
  | .list a, .list b => pyEqList a b
  | _, _ => false

/-- Python list `==` (elementwise, lengths must agree). -/
def pyEqList : List Value → List Value → Bool
  | [], [] => true
  | a :: as, b :: bs => pyEq a b && pyEqList as bs
  | _, _ => false
end

/-- Lexicographic `<` on char lists (Python unicode comparison is by code
point). -/
def charListLt : List Char → List Char → Bool
  | [], [] => false
  | [], _ :: _ => true
  | _ :: _, [] => false
  | c :: cs, d :: ds => if c == d then charListLt cs ds else decide (c < d)

/-- Python unicode `<`. -/
def strLt (a b : String) : Bool := charListLt a.data b.data

/-- Python 2 cross-type ordering rank for the non-null values the program
manipulates: numbers sort before containers and strings, and mismatched
non-numeric types compare by type name (so list < str). -/
def typeRank : Value → Nat
  | .list _ => 1
  | .str _ => 2
  | _ => 0

mutual
/-- Python `<` as the evaluator sees it.  `Null.__lt__` is unconditionally
`True` (`ast.py:224-228`); for `x < NULL` with non-null `x` Python falls back
to the reflected `Null.__gt__`, which `functools.total_ordering` derives as
`not (Null < x or Null == x) = False`.  Same-type values compare natively and
mismatched non-null types compare by rank. -/
def pyLt : Value → Value → Bool
  | .null, _ => true
  | _, .null => false
  | .inf, b => if isNum b then false else pyRankLt .inf b
  | a, .inf => if isNum a then true else pyRankLt a .inf
  | .str a, .str b => strLt a b
  | .list a, .list b => pyLtList a b
  | a, b =>
    if isNum a && isNum b then decide (ratOf a < ratOf b)
    else pyRankLt a b

/-- Python list `<`: first non-`==` position decides by `<`; a strict prefix is
smaller. -/
def pyLtList : List Value → List Value → Bool
  | [], [] => false
  | [], _ :: _ => true
  | _ :: _, [] => false
  | a :: as, b :: bs => if pyEq a b then pyLtList as bs else pyLt a b

/-- Mixed-type comparison by rank (numbers < list < str). -/
def pyRankLt (a b : Value) : Bool :=
  decide (typeRank a < typeRank b)
end

/-- Python `<=`: `Null.__le__` is `lt or eq = True`; `x <= NULL` uses the
reflected `Null.__ge__ = not (Null < x) = False`; otherwise `lt or eq`. -/
def pyLe : Value → Value → Bool
  | .null, _ => true
  | a, .null => isNull a
  | a, b => pyLt a b || pyEq a b

/-- Python `>`: `Null.__gt__` is derived by `total_ordering` as
`not (lt or eq) = False`; `x > NULL` uses the reflected `Null.__lt__ = True`;
otherwise the mirror of `<`. -/
def pyGt : Value → Value → Bool
  | .null, _ => false
  | _, .null => true
  | a, b => pyLt b a

/-- Python `>=`: `Null.__ge__ = not (Null < x) = False` (even against NULL
itself); `x >= NULL` uses the reflected `Null.__le__ = True`; otherwise
mirror of `<=`. -/
def pyGe : Value → Value → Bool
  | .null, _ => false
  | _, .null => true
  | a, b => pyLt b a || pyEq b a

/-- Python truthiness of the values the evaluator tests (`Null.__nonzero__`
is `False`, `ast.py:218-222`). -/
def truthy : Value → Bool
  | .null => false
  | .bool b => b
  | .int n => n != 0
  | .rat q => q != 0
  | .str s => !s.isEmpty
  | .inf => true
  | .list l => !l.isEmpty

/-- Python `+` (`operator.add`) on the value domain: numeric addition with
int/bool staying integral, string and list concatenation; anything else is a
TypeError (`none`). -/
def pyAdd : Value → Value → Option Value
  | .str a, .str b => some (.str (a ++ b))
  | .list a, .list b => some (.list (a ++ b))
  | .inf, b => if isNum b then some .inf else none
  | a, .inf => if isNum a then some .inf else none
  | a, b =>
    match intLike a, intLike b with
    | some x, some y => some (.int (x + y))
    | _, _ =>
      if isNum a && isNum b then some (.rat (ratOf a + ratOf b)) else none

/-- Python `-` (`operator.sub`). `inf - x` stays `inf`; results that would be
`-inf`/`nan` are outside the exact model and map to `none`. -/
def pySub : Value → Value → Option Value
  | .inf, b => if isNum b && !(b matches .inf) then some .inf else none
  | _, .inf => none
  | a, b =>
    match intLike a, intLike b with
    | some x, some y => some (.int (x - y))
    | _, _ =>
      if isNum a && isNum b then some (.rat (ratOf a - ratOf b)) else none

/-- Python `*` (`operator.mul`): numeric product, plus sequence repetition
(`'ab' * 3`, `[x] * 3`). -/
def pyMul : Value → Value → Option Value
  | .str a, b => (intLike b).map fun n => .str (String.join (List.replicate n.toNat a))
  | a, .str b => (intLike a).map fun n => .str (String.join (List.replicate n.toNat b))
  | .list a, b => (intLike b).map fun n => .list (List.flatten (List.replicate n.toNat a))
  | a, .list b => (intLike a).map fun n => .list (List.flatten (List.replicate n.toNat b))
  | .inf, b => if isNum b && decide (0 < ratOf b) then some .inf else none
  | a, .inf => if isNum a && decide (0 < ratOf a) then some .inf else none
  | a, b =>
    match intLike a, intLike b with
    | some x, some y => some (.int (x * y))
    | _, _ =>
      if isNum a && isNum b then some (.rat (ratOf a * ratOf b)) else none

/-- Python 2 classic division (`operator.div`, registered for `/` in
`ast.py:625`): floor division on ints, true division once a float is
involved, ZeroDivisionError is `none`. -/
def pyDivC : Value → Value → Option Value
  | _, .inf => some (.rat 0)
  | .inf, b => if isNum b && decide (0 < ratOf b) then some .inf else none
  | a, b =>
    match intLike a, intLike b with
    | some x, some y => if y == 0 then none else some (.int (Int.fdiv x y))
    | _, _ =>
      if isNum a && isNum b then
        if ratOf b == 0 then none else some (.rat (ratOf a / ratOf b))
      else none

/-- Python `%` (`operator.mod`): sign follows the divisor (floor-based). -/
def pyMod : Value → Value → Option Value
  | a, b =>
    match intLike a, intLike b with
    | some x, some y => if y == 0 then none else some (.int (Int.fmod x y))
    | _, _ =>
      if isNum a && isNum b && !(a matches .inf) && !(b matches .inf) then
        if ratOf b == 0 then none
        else some (.rat (ratOf a - ratOf b * ((ratOf a / ratOf b).floor : ℚ)))
      else none

/-- Python int exponent of an exponent value: int/bool directly, a float with
integral value counts as its integer (non-integral exponents produce
irrational floats, outside the exact-rational model). -/
def intExp : Value → Option Int
  | .int n => some n
  | .bool b => some (if b then 1 else 0)
  | .rat q => if q.den == 1 then some q.num else none
  | _ => none

/-- Python `**` (`operator.pow`): int powers stay int for non-negative
exponents and become floats for negative ones. -/
def pyPow : Value → Value → Option Value
  | .inf, b =>
    match intExp b with
    | some e => if e > 0 then some .inf else if e == 0 then some (.rat 1) else some (.rat 0)
    | none => none
  | a, b =>
    match intLike a, intLike b with
    | some x, some y =>
      if y ≥ 0 then some (.int (x ^ y.toNat))
      else if x == 0 then none else some (.rat ((x : ℚ) ^ y))
    | _, _ =>
      match a, intExp b with
      | .rat q, some y =>
        if q == 0 && y < 0 then none else some (.rat (q ^ y))
      | .int x, some y =>
        if y ≥ 0 then some (.rat ((x : ℚ) ^ y.toNat))
        else if x == 0 then none else some (.rat ((x : ℚ) ^ y))
      | .bool bb, some y =>
        let x : Int := if bb then 1 else 0
        if y ≥ 0 then some (.rat ((x : ℚ) ^ y.toNat))
        else if x == 0 then none else some (.rat ((x : ℚ) ^ y))
      | _, _ => none

/-- Python unary `-` (`operator.neg`, the `negate` builtin of `ast.py:626`). -/
def pyNeg : Value → Option Value
  | .int n => some (.int (-n))
  | .bool b => some (.int (-(if b then 1 else 0)))
  | .rat q => some (.rat (-q))
  | _ => none

/-! ## The built-in function namespace (`ast.py:619-637`) -/

/-- `sql_function` of `ast.py:468-477`: the wrapper returns `NULL` as soon as
any argument is the `NULL` singleton, and only otherwise calls the wrapped
function. -/
def sql_function (f : List Value → Option Value) (args : List Value) : Option Value :=
  if args.any isNull then some .null else f args

/-- Lift a binary Python function to the `*args` calling convention; a wrong
argument count is a TypeError. -/
def bin2 (f : Value → Value → Option Value) : List Value → Option Value
  | [a, b] => f a b
  | _ => none

/-- Lift a unary Python function likewise. -/
def un1 (f : Value → Option Value) : List Value → Option Value
  | [a] => f a
  | _ => none

/-- A Python comparison operator (`operator.lt` and friends) always returns a
bool on this domain. -/
def cmpOp (c : Value → Value → Bool) : List Value → Option Value :=
  bin2 fun a b => some (.bool (c a b))

/-- `len` (registered as `length`, `ast.py:635`): defined for sized values. -/
def pyLen : List Value → Option Value :=
  un1 fun v =>
    match v with
    | .str s => some (.int s.length)
    | .list l => some (.int l.length)
    | _ => none

/-- Boolean prefix test on char lists. -/
def isPrefixB : List Char → List Char → Bool
  | [], _ => true
  | _ :: _, [] => false
  | a :: as, b :: bs => a == b && isPrefixB as bs

/-- Boolean substring (contiguous) test on char lists, for Python's
`str in str`. -/
def isSubListB (needle : List Char) : List Char → Bool
  | [] => isPrefixB needle []
  | c :: t => isPrefixB needle (c :: t) || isSubListB needle t

/-- `in_` of `ast.py:613-614`: membership for lists, substring test for
strings. -/
def pyIn : List Value → Option Value :=
  bin2 fun x y =>
    match y with
    | .list l => some (.bool (l.any (pyEq x)))
    | .str s =>
      match x with
      | .str t => some (.bool (isSubListB t.data s.data))
      | _ => none
    | _ => none

/-- The scalar entries of the `FUNCTIONS` namespace (`ast.py:619-637`).  The
only non-scalar entry, `files`, is the virtual-table generator and is handled
by the query evaluator's row source; it has no scalar call semantics. -/
def FUNCTIONS_table : List (String × (List Value → Option Value)) :=
  [ ("||", sql_function (bin2 pyAdd)),
    ("+", sql_function (bin2 pyAdd)),
    ("-", sql_function (bin2 pySub)),
    ("*", sql_function (bin2 pyMul)),
    ("/", sql_function (bin2 pyDivC)),
    ("negate", sql_function (un1 pyNeg)),
    (">", sql_function (cmpOp pyGt)),
    (">=", sql_function (cmpOp pyGe)),
    ("<", sql_function (cmpOp pyLt)),
    ("<=", sql_function (cmpOp pyLe)),
    ("=", sql_function (cmpOp pyEq)),
    ("<>", sql_function (cmpOp (fun a b => !pyEq a b))),
    ("^", sql_function (bin2 pyPow)),
    ("%", sql_function (bin2 pyMod)),
    ("length", sql_function pyLen),
    ("in", sql_function pyIn) ]

/-- ASCII lowercasing of one character, as Python `unicode.lower` acts on the
ASCII keys the program uses. -/
def lowerChar (c : Char) : Char :=
  if 'A' ≤ c && c ≤ 'Z' then Char.ofNat (c.toNat + 32) else c

/-- ASCII lowercasing of a key (`Namespace.prepare_key`, `ast.py:44-47`). -/
def lowerStr (s : String) : String :=
  String.mk (s.data.map lowerChar)

/-- `FUNCTIONS` is a `Context`, i.e. a case-insensitive namespace whose keys
are lowercased on construction and lookup (`ast.py:23-47`). -/
def FUNCTIONS_lookup (key : String) : Option (List Value → Option Value) :=
  FUNCTIONS_table.lookup (lowerStr key)

/-- The scalar operators named by the specification's NULL-propagation
invariant. -/
def SCALAR_OPS : List String :=
  ["+", "-", "*", "/", "%", "^", "||", "=", "<>", "<", "<=", ">", ">="]

theorem sql_function_null (f : List Value → Option Value) (args : List Value)
    (h : Value.null ∈ args) : sql_function f args = some Value.null := by
  have hany : args.any isNull = true := List.any_eq_true.mpr ⟨Value.null, h, rfl⟩
  simp [sql_function, hany]

/-- C1: every scalar operator registered in the built-in namespace propagates
NULL: whenever any argument is the NULL singleton, the registered (wrapped)
function returns NULL. -/
theorem scalar_ops_propagate_null (op : String) (args : List Value)
    (hop : op ∈ SCALAR_OPS) (hnull : Value.null ∈ args) :
    ∃ f, FUNCTIONS_lookup op = some f ∧ f args = some Value.null := by
  simp only [SCALAR_OPS, List.mem_cons, List.not_mem_nil, or_false] at hop
  rcases hop with h | h | h | h | h | h | h | h | h | h | h | h | h <;>
    subst h <;>
    exact ⟨_, rfl, sql_function_null _ _ hnull⟩

/-- Witness for C1 at a concrete operator and argument list. -/
theorem scalar_ops_propagate_null_witness :
    ∃ f, FUNCTIONS_lookup "+" = some f ∧ f [Value.null, Value.int 1] = some Value.null :=
  scalar_ops_propagate_null "+" [Value.null, Value.int 1]
    (by simp [SCALAR_OPS]) (by simp)

/-! ## Aggregate accumulators (`ast.py:494-608`) -/

/-- `CountAggregate` (`ast.py:510-523`). -/
structure CountAggregate where
  count : Int
deriving Repr

def CountAggregate.init : CountAggregate := ⟨0⟩

/-- `CountAggregate.add`: counts only non-NULL values. -/
def CountAggregate.add (a : CountAggregate) (v : Value) : CountAggregate :=
  if isNull v then a else ⟨a.count + 1⟩

def CountAggregate.value (a : CountAggregate) : Value := .int a.count

/-- `SumAggregate` (`ast.py:526-539`): `_sum` starts as the int `0` and grows
by Python `+=`, which can raise TypeError on non-numeric input. -/
structure SumAggregate where
  sum : Value
deriving Repr

def SumAggregate.init : SumAggregate := ⟨.int 0⟩

def SumAggregate.add (a : SumAggregate) (v : Value) : Option SumAggregate :=
  if isNull v then some a else (pyAdd a.sum v).map (⟨·⟩)

def SumAggregate.value (a : SumAggregate) : Value := a.sum

/-- `MaxAggregate` (`ast.py:542-558`): `_max` starts as NULL; a non-NULL input
replaces a NULL state, otherwise Python `max` keeps the larger (by `>`). -/
structure MaxAggregate where
  max : Value
deriving Repr

def MaxAggregate.init : MaxAggregate := ⟨.null⟩

def MaxAggregate.add (a : MaxAggregate) (v : Value) : MaxAggregate :=
  if isNull v then a
  else if isNull a.max then ⟨v⟩
  else ⟨if pyGt v a.max then v else a.max⟩

def MaxAggregate.value (a : MaxAggregate) : Value := a.max

/-- `MinAggregate` (`ast.py:562-578`), mirror of `MaxAggregate` with `min`. -/
structure MinAggregate where
  min : Value
deriving Repr

def MinAggregate.init : MinAggregate := ⟨.null⟩

def MinAggregate.add (a : MinAggregate) (v : Value) : MinAggregate :=
  if isNull v then a
  else if isNull a.min then ⟨v⟩
  else ⟨if pyLt v a.min then v else a.min⟩

def MinAggregate.value (a : MinAggregate) : Value := a.min

/-- Python true division (`from __future__ import division` is in effect in
`ast.py`), used by `AvgAggregate.value`. -/
def pyTrueDiv (a b : Value) : Option Value :=
  if isNum a && isNum b && !(a matches .inf) && !(b matches .inf) then
    if ratOf b == 0 then none else some (.rat (ratOf a / ratOf b))
  else none

/-- `AvgAggregate` (`ast.py:581-599`): running sum and non-null count; `value`
is NULL for an empty count, else the true-division quotient. -/
structure AvgAggregate where
  sum : Value
  count : Int
deriving Repr

def AvgAggregate.init : AvgAggregate := ⟨.int 0, 0⟩

def AvgAggregate.add (a : AvgAggregate) (v : Value) : Option AvgAggregate :=
  if isNull v then some a
  else (pyAdd a.sum v).map (⟨·, a.count + 1⟩)

def AvgAggregate.value (a : AvgAggregate) : Option Value :=
  if a.count == 0 then some .null else pyTrueDiv a.sum (.int a.count)

/-- Feed a whole sequence to each accumulator kind. -/
def countRun (vs : List Value) : CountAggregate := vs.foldl CountAggregate.add .init

def sumRun (vs : List Value) : Option SumAggregate := vs.foldlM SumAggregate.add .init

def maxRun (vs : List Value) : MaxAggregate := vs.foldl MaxAggregate.add .init

def minRun (vs : List Value) : MinAggregate := vs.foldl MinAggregate.add .init

def avgRun (vs : List Value) : Option AvgAggregate := vs.foldlM AvgAggregate.add .init

/-! Spec-side folds, written from the claim's words: each aggregate equals a
fold over the non-NULL inputs, with SUM of an empty group `0` and MIN, MAX,
AVG of an empty group `NULL`. -/

/-- The non-NULL inputs of a sequence. -/
def nonNulls (vs : List Value) : List Value := vs.filter (fun v => !isNull v)

def asInt : Value → Option Int
  | .int n => some n
  | _ => none

/-- Spec-side sum of integer inputs, skipping NULL, empty sum `0`. -/
def specSumInt (vs : List Value) : Int := (((nonNulls vs).filterMap asInt).sum)

/-- Python binary `max` step (`max(a, b)` keeps `b` only when `b > a`). -/
def pyMax2 (a v : Value) : Value := if pyGt v a then v else a

/-- Python binary `min` step (`min(a, b)` keeps `b` only when `b < a`). -/
def pyMin2 (a v : Value) : Value := if pyLt v a then v else a

/-- Spec-side MAX fold: NULL on empty, else a `max` fold seeded with the first
non-NULL input. -/
def specMax (vs : List Value) : Value :=
  match nonNulls vs with
  | [] => .null
  | h :: t => t.foldl pyMax2 h

/-- Spec-side MIN fold. -/
def specMin (vs : List Value) : Value :=
  match nonNulls vs with
  | [] => .null
  | h :: t => t.foldl pyMin2 h

/-- Spec-side AVG: NULL on empty, else exact sum over non-null count. -/
def specAvg (vs : List Value) : Value :=
  if (nonNulls vs).length = 0 then .null
  else .rat ((specSumInt vs : ℚ) / ((nonNulls vs).length : ℚ))

theorem countRun_aux (k : Int) (vs : List Value) :
    (vs.foldl CountAggregate.add ⟨k⟩).count = k + (nonNulls vs).length := by
  induction vs generalizing k with
  | nil => simp [nonNulls]
  | cons v vs ih =>
    by_cases h : isNull v = true
    · simp [List.foldl_cons, CountAggregate.add, h, nonNulls, ih]
    · simp only [Bool.not_eq_true] at h
      simp [List.foldl_cons, CountAggregate.add, h, nonNulls, ih]
      ring

theorem countRun_spec (vs : List Value) :
    (countRun vs).value = .int (nonNulls vs).length := by
  simp [countRun, CountAggregate.value, CountAggregate.init, countRun_aux]

theorem sumRun_aux (k : Int) (vs : List Value)
    (h : ∀ v ∈ vs, v = .null ∨ ∃ n, v = .int n) :
    vs.foldlM SumAggregate.add ⟨.int k⟩ = some ⟨.int (k + specSumInt vs)⟩ := by
  induction vs generalizing k with
  | nil => simp [specSumInt, nonNulls]
  | cons v vs ih =>
    rcases h v (List.mem_cons_self v vs) with hv | ⟨n, hv⟩ <;> subst hv
    · simpa [List.foldlM_cons, SumAggregate.add, isNull, specSumInt, nonNulls]
        using ih k (fun w hw => h w (List.mem_cons_of_mem _ hw))
    · have := ih (k + n) (fun w hw => h w (List.mem_cons_of_mem _ hw))
      simp [List.foldlM_cons, SumAggregate.add, isNull, pyAdd, intLike, this,
        specSumInt, nonNulls, asInt]
      ring_nf

theorem sumRun_spec (vs : List Value)
    (h : ∀ v ∈ vs, v = .null ∨ ∃ n, v = .int n) :
    sumRun vs = some ⟨.int (specSumInt vs)⟩ := by
  simpa [sumRun, SumAggregate.init] using sumRun_aux 0 vs h

theorem nonNulls_cons_null (vs : List Value) :
    nonNulls (Value.null :: vs) = nonNulls vs := by
  simp [nonNulls, isNull]

theorem nonNulls_cons_of_not_null (v : Value) (vs : List Value)
    (h : isNull v = false) : nonNulls (v :: vs) = v :: nonNulls vs := by
  simp [nonNulls, h]

theorem isNull_eq_true_iff (v : Value) : isNull v = true ↔ v = .null := by
  cases v <;> simp [isNull]

theorem maxRun_aux (m : Value) (vs : List Value) (hm : isNull m = false) :
    (vs.foldl MaxAggregate.add ⟨m⟩).max = (nonNulls vs).foldl pyMax2 m := by
  induction vs generalizing m with
  | nil => simp [nonNulls]
  | cons v vs ih =>
    by_cases h : isNull v = true
    · rw [isNull_eq_true_iff] at h
      subst h
      rw [nonNulls_cons_null]
      have step : MaxAggregate.add ⟨m⟩ .null = ⟨m⟩ := by
        simp [MaxAggregate.add, isNull]
      rw [List.foldl_cons, step]
      exact ih m hm
    · simp only [Bool.not_eq_true] at h
      have hmv : isNull (pyMax2 m v) = false := by
        unfold pyMax2
        split
        · exact h
        · exact hm
      have step : MaxAggregate.add ⟨m⟩ v = ⟨pyMax2 m v⟩ := by
        simp [MaxAggregate.add, h, hm, pyMax2]
      rw [List.foldl_cons, step, ih _ hmv, nonNulls_cons_of_not_null v vs h,
        List.foldl_cons]

theorem maxRun_spec (vs : List Value) : (maxRun vs).value = specMax vs := by
  unfold maxRun MaxAggregate.init
  induction vs with
  | nil => simp [nonNulls, MaxAggregate.value, specMax]
  | cons v vs ih =>
    by_cases h : isNull v = true
    · rw [isNull_eq_true_iff] at h
      subst h
      have step : MaxAggregate.add ⟨.null⟩ .null = ⟨.null⟩ := by
        simp [MaxAggregate.add, isNull]
      rw [List.foldl_cons, step]
      rw [ih]
      unfold specMax
      rw [nonNulls_cons_null]
    · simp only [Bool.not_eq_true] at h
      have step : MaxAggregate.add ⟨.null⟩ v = ⟨v⟩ := by
        unfold MaxAggregate.add
        rw [h]
        simp [isNull]
      rw [List.foldl_cons, step]
      unfold specMax
      rw [nonNulls_cons_of_not_null v vs h]
      exact maxRun_aux v vs h

theorem minRun_aux (m : Value) (vs : List Value) (hm : isNull m = false) :
    (vs.foldl MinAggregate.add ⟨m⟩).min = (nonNulls vs).foldl pyMin2 m := by
  induction vs generalizing m with
  | nil => simp [nonNulls]
  | cons v vs ih =>
    by_cases h : isNull v = true
    · rw [isNull_eq_true_iff] at h
      subst h
      rw [nonNulls_cons_null]
      have step : MinAggregate.add ⟨m⟩ .null = ⟨m⟩ := by
        simp [MinAggregate.add, isNull]
      rw [List.foldl_cons, step]
      exact ih m hm
    · simp only [Bool.not_eq_true] at h
      have hmv : isNull (pyMin2 m v) = false := by
        unfold pyMin2
        split
        · exact h
        · exact hm
      have step : MinAggregate.add ⟨m⟩ v = ⟨pyMin2 m v⟩ := by
        simp [MinAggregate.add, h, hm, pyMin2]
      rw [List.foldl_cons, step, ih _ hmv, nonNulls_cons_of_not_null v vs h,
        List.foldl_cons]

theorem minRun_spec (vs : List Value) : (minRun vs).value = specMin vs := by
  unfold minRun MinAggregate.init
  induction vs with
  | nil => simp [nonNulls, MinAggregate.value, specMin]
  | cons v vs ih =>
    by_cases h : isNull v = true
    · rw [isNull_eq_true_iff] at h
      subst h
      have step : MinAggregate.add ⟨.null⟩ .null = ⟨.null⟩ := by
        simp [MinAggregate.add, isNull]
      rw [List.foldl_cons, step]
      rw [ih]
      unfold specMin
      rw [nonNulls_cons_null]
    · simp only [Bool.not_eq_true] at h
      have step : MinAggregate.add ⟨.null⟩ v = ⟨v⟩ := by
        unfold MinAggregate.add
        rw [h]
        simp [isNull]
      rw [List.foldl_cons, step]
      unfold specMin
      rw [nonNulls_cons_of_not_null v vs h]
      exact minRun_aux v vs h

theorem avgRun_aux (k c : Int) (vs : List Value)
    (h : ∀ v ∈ vs, v = .null ∨ ∃ n, v = .int n) :
    vs.foldlM AvgAggregate.add ⟨.int k, c⟩ =
      some ⟨.int (k + specSumInt vs), c + (nonNulls vs).length⟩ := by
  induction vs generalizing k c with
  | nil => simp [specSumInt, nonNulls]
  | cons v vs ih =>
    rcases h v (List.mem_cons_self v vs) with hv | ⟨n, hv⟩ <;> subst hv
    · simpa [List.foldlM_cons, AvgAggregate.add, isNull, specSumInt, nonNulls]
        using ih k c (fun w hw => h w (List.mem_cons_of_mem _ hw))
    · have := ih (k + n) (c + 1) (fun w hw => h w (List.mem_cons_of_mem _ hw))
      simp [List.foldlM_cons, AvgAggregate.add, isNull, pyAdd, intLike, this,
        specSumInt, nonNulls, asInt]
      constructor
      · ring_nf
      · omega

theorem avgRun_spec (vs : List Value)
    (h : ∀ v ∈ vs, v = .null ∨ ∃ n, v = .int n) :
    ∃ a, avgRun vs = some a ∧ a.value = some (specAvg vs) := by
  refine ⟨⟨.int (specSumInt vs), (nonNulls vs).length⟩, ?_, ?_⟩
  · simpa [avgRun, AvgAggregate.init] using avgRun_aux 0 0 vs h
  · by_cases hlen : (nonNulls vs).length = 0
    · simp [AvgAggregate.value, hlen, specAvg]
    · have : ((nonNulls vs).length : Int) ≠ 0 := by exact_mod_cast hlen
      simp [AvgAggregate.value, this, specAvg, hlen, pyTrueDiv, isNum, ratOf]

/-- C5: aggregates skip NULL inputs; each accumulator's value after feeding a
finite sequence equals the corresponding fold over the non-NULL inputs, with
SUM of an empty group 0 (the initial int) and MIN, MAX, AVG of an empty group
NULL. -/
theorem aggregates_fold_non_null :
    (∀ vs : List Value, (countRun vs).value = .int (nonNulls vs).length) ∧
    (∀ vs : List Value, (∀ v ∈ vs, v = .null ∨ ∃ n, v = .int n) →
      sumRun vs = some ⟨.int (specSumInt vs)⟩) ∧
    (∀ vs : List Value, (maxRun vs).value = specMax vs) ∧
    (∀ vs : List Value, (minRun vs).value = specMin vs) ∧
    (∀ vs : List Value, (∀ v ∈ vs, v = .null ∨ ∃ n, v = .int n) →
      ∃ a, avgRun vs = some a ∧ a.value = some (specAvg vs)) :=
  ⟨countRun_spec, sumRun_spec, maxRun_spec, minRun_spec, avgRun_spec⟩

/-- Witness for C5 on the concrete input `[NULL, 2, 4]`. -/
theorem aggregates_fold_non_null_witness :
    sumRun [Value.null, Value.int 2, Value.int 4] =
      some ⟨.int (specSumInt [Value.null, Value.int 2, Value.int 4])⟩ ∧
    (∃ a, avgRun [Value.null, Value.int 2, Value.int 4] = some a ∧
      a.value = some (specAvg [Value.null, Value.int 2, Value.int 4])) := by
  have h : ∀ v ∈ [Value.null, Value.int 2, Value.int 4], v = .null ∨ ∃ n, v = .int n := by
    intro v hv
    simp only [List.mem_cons, List.not_mem_nil, or_false] at hv
    rcases hv with h | h | h <;> subst h
    · exact Or.inl rfl
    · exact Or.inr ⟨2, rfl⟩
    · exact Or.inr ⟨4, rfl⟩
  exact ⟨aggregates_fold_non_null.2.1 _ h, aggregates_fold_non_null.2.2.2.2 _ h⟩

/-! ## AST nodes (`ast.py:691-1228`) -/

/-- AST node variants, as produced by the parser and the semantic rewrite.
`aggFunctionN` carries `aggIdx`, a numbering of the fresh accumulator object
that `AggFunctionNode.create` embeds in the node (object identity in the
source becomes an index into the evaluator's accumulator store). -/
inductive Node where
  | valueN (v : Value)
  | nameN (name : String)
  | arrayN (nodes : List Node)
  | functionN (fname : String) (args : List Node)
  | aggFunctionN (fname : String) (aggIdx : Nat) (args : List Node)
  | andN (l r : Node)
  | orN (l r : Node)
  | betweenN (v lo hi : Node)
  | orderByPartN (dir : Int) (child : Node)
  | selectStarN
  | selectN (children : List Node)
  | orderN (children : List Node)
  | groupN (children : List Node)
  | fakeGroupN
deriving Repr

/-- The `children` field of a node (`ast.py:691-700`): the walk/transform
machinery and the evaluator traverse exactly this list. -/
def childrenOf : Node → List Node
  | .valueN _ => []
  | .nameN _ => []
  | .arrayN ns => ns
  | .functionN _ args => args
  | .aggFunctionN _ _ args => args
  | .andN l r => [l, r]
  | .orN l r => [l, r]
  | .betweenN v lo hi => [v, lo, hi]
  | .orderByPartN _ c => [c]
  | .selectStarN => []
  | .selectN ns => ns
  | .orderN ns => ns
  | .groupN ns => ns
  | .fakeGroupN => []

mutual
/-- Python `Node.__eq__` (`ast.py:722-726`): same class, equal `data` payload
and equal children; location and parent are ignored.  (The source's
`OrNode <: AndNode` subclassing makes `AndNode.__eq__(OrNode)` compare
payloads; no claim exercises that corner and the model keeps constructors
distinct.) -/
def nodeEq : Node → Node → Bool
  | .valueN a, .valueN b => pyEq a b
  | .nameN a, .nameN b => a == b
  | .arrayN a, .arrayN b => nodeEqList a b
  | .functionN f a, .functionN g b => f == g && nodeEqList a b
  | .aggFunctionN f i a, .aggFunctionN g j b => f == g && i == j && nodeEqList a b
  | .andN l r, .andN l' r' => nodeEq l l' && nodeEq r r'
  | .orN l r, .orN l' r' => nodeEq l l' && nodeEq r r'
  | .betweenN v lo hi, .betweenN v' lo' hi' => nodeEq v v' && nodeEq lo lo' && nodeEq hi hi'
  | .orderByPartN d c, .orderByPartN d' c' => d == d' && nodeEq c c'
  | .selectStarN, .selectStarN => true
  | .selectN a, .selectN b => nodeEqList a b
  | .orderN a, .orderN b => nodeEqList a b
  | .groupN a, .groupN b => nodeEqList a b
  | .fakeGroupN, .fakeGroupN => true
  | _, _ => false

def nodeEqList : List Node → List Node → Bool
  | [], [] => true
  | a :: as, b :: bs => nodeEq a b && nodeEqList as bs
  | _, _ => false
end

/-- The `AGGREGATES` dict keys (`ast.py:602-608`); a plain dict, so membership
is case-sensitive. -/
def AGGREGATES_names : List String := ["count", "sum", "max", "min", "avg"]

mutual
/-- `has_agg_functions_nodes` (`ast.py:100-133`): the walk visits every
descendant (and the node itself) and flags nodes that are `FunctionNode`
instances (which includes `AggFunctionNode`) whose `function_name` is an
`AGGREGATES` key; for every other node the result is the disjunction over its
children. -/
def hasAggCall : Node → Bool
  | .functionN f args => AGGREGATES_names.contains f || hasAggList args
  | .aggFunctionN f _ args => AGGREGATES_names.contains f || hasAggList args
  | .valueN _ => false
  | .nameN _ => false
  | .arrayN ns => hasAggList ns
  | .andN l r => hasAggCall l || hasAggCall r
  | .orN l r => hasAggCall l || hasAggCall r
  | .betweenN v lo hi => hasAggCall v || (hasAggCall lo || hasAggCall hi)
  | .orderByPartN _ c => hasAggCall c
  | .selectStarN => false
  | .selectN ns => hasAggList ns
  | .orderN ns => hasAggList ns
  | .groupN ns => hasAggList ns
  | .fakeGroupN => false

def hasAggList : List Node → Bool
  | [] => false
  | n :: ns => hasAggCall n || hasAggList ns
end

mutual
/-- `AggFunctionsTransformer` applied via `Node.transform` (`ast.py:164-171`,
`711-713`): children are transformed first, then a `FunctionNode` whose name
is an aggregate is replaced by an `AggFunctionNode` owning a fresh
accumulator.  The `Nat` argument threads the next fresh accumulator index. -/
def liftAggs : Node → Nat → Node × Nat
  | .functionN f args, c =>
    let (args', c') := liftAggsList args c
    if AGGREGATES_names.contains f then (.aggFunctionN f c' args', c' + 1)
    else (.functionN f args', c')
  | .valueN v, c => (.valueN v, c)
  | .nameN s, c => (.nameN s, c)
  | .arrayN ns, c => let (ns', c') := liftAggsList ns c; (.arrayN ns', c')
  | .aggFunctionN f i args, c =>
    let (args', c') := liftAggsList args c
    (.aggFunctionN f i args', c')
  | .andN l r, c =>
    let (l', c1) := liftAggs l c
    let (r', c2) := liftAggs r c1
    (.andN l' r', c2)
  | .orN l r, c =>
    let (l', c1) := liftAggs l c
    let (r', c2) := liftAggs r c1
    (.orN l' r', c2)
  | .betweenN v lo hi, c =>
    let (v', c1) := liftAggs v c
    let (lo', c2) := liftAggs lo c1
    let (hi', c3) := liftAggs hi c2
    (.betweenN v' lo' hi', c3)
  | .orderByPartN d ch, c => let (ch', c') := liftAggs ch c; (.orderByPartN d ch', c')
  | .selectStarN, c => (.selectStarN, c)
  | .selectN ns, c => let (ns', c') := liftAggsList ns c; (.selectN ns', c')
  | .orderN ns, c => let (ns', c') := liftAggsList ns c; (.orderN ns', c')
  | .groupN ns, c => let (ns', c') := liftAggsList ns c; (.groupN ns', c')
  | .fakeGroupN, c => (.fakeGroupN, c)

def liftAggsList : List Node → Nat → List Node × Nat
  | [], c => ([], c)
  | n :: ns, c =>
    let (n', c1) := liftAggs n c
    let (ns', c2) := liftAggsList ns c1
    (n' :: ns', c2)
end

/-! ## Declared types (`Node.get_type`) -/

/-- The Python type objects handed around by `get_type`; `otherT` stands for
the runtime values that leak into the type scope through the outer context
(`ast.py:932`, e.g. `null` or `cwd`), whose identity no claim inspects. -/
inductive PyType
  | nullClassT
  | boolT
  | intT
  | floatT
  | unicodeT
  | listT
  | numberT
  | objectT
  | sizedT
  | anyIterableT
  | filesTableT
  | otherT
deriving Repr, DecidableEq

/-- `type(value)` for `ValueNode.get_type` (`ast.py:1114-1115`). -/
def tyOf : Value → PyType
  | .null => .nullClassT
  | .int _ => .intT
  | .rat _ => .floatT
  | .str _ => .unicodeT
  | .bool _ => .boolT
  | .inf => .floatT
  | .list _ => .listT

/-- `Stat.get_type()` (`ast.py:424-452`): the declared column types of the
file-stat virtual table, keyed by lowercase column name. -/
def STAT_TYPES : List (String × PyType) :=
  [ ("fullpath", .unicodeT), ("size", .intT), ("owner", .unicodeT),
    ("path", .unicodeT), ("fulldir", .unicodeT), ("dir", .unicodeT),
    ("name", .unicodeT), ("extension", .unicodeT), ("no_ext", .unicodeT),
    ("mode", .unicodeT), ("group", .unicodeT), ("atime", .intT),
    ("mtime", .intT), ("ctime", .intT), ("birthtime", .intT),
    ("depth", .intT), ("type", .unicodeT), ("device", .unicodeT),
    ("hardlinks", .intT), ("inode", .unicodeT), ("text", .unicodeT),
    ("lines", .sizedT), ("is_executable", .boolT), ("ext", .unicodeT),
    ("is_exec", .unicodeT) ]

/-- `FilesTableType.star_columns = Stat.MAIN_ATTRS` (`ast.py:174-177`, `289`). -/
def MAIN_ATTRS : List String := ["mode", "owner", "size", "mtime", "path"]

/-- `return_type` of each `FUNCTIONS` entry: the last element of the
`sql_function` signature (`ast.py:476`, `619-637`); `files` returns the
file-table type (`ast.py:465`). -/
def FUNC_RETURN : List (String × PyType) :=
  [ ("files", .filesTableT), ("||", .unicodeT), ("+", .numberT),
    ("-", .numberT), ("*", .numberT), ("/", .numberT), ("negate", .numberT),
    (">", .numberT), (">=", .numberT), ("<", .numberT), ("<=", .numberT),
    ("=", .numberT), ("<>", .numberT), ("^", .numberT), ("%", .numberT),
    ("length", .intT), ("in", .anyIterableT) ]

/-- `return_type` of each aggregate class (`ast.py:510-599`). -/
def AGG_RETURN : List (String × PyType) :=
  [ ("count", .intT), ("sum", .numberT), ("max", .objectT),
    ("min", .objectT), ("avg", .floatT) ]

/-- A name-resolution scope for `get_type`. -/
abbrev TypeScope : Type := String → Option PyType

/-- `Node.get_type` (`ast.py` various): literals report their Python type,
names resolve in the scope, function calls report the registered return type,
`BETWEEN` is bool, arrays are iterables, order-by parts delegate to their
child; every other node inherits the `NotImplementedError` default
(`ast.py:702-703`), which is a failure. -/
def getType (scope : TypeScope) : Node → Option PyType
  | .valueN v => some (tyOf v)
  | .nameN s => scope s
  | .functionN f _ => FUNC_RETURN.lookup (lowerStr f)
  | .aggFunctionN f _ _ => AGG_RETURN.lookup f
  | .betweenN _ _ _ => some .boolT
  | .arrayN _ => some .anyIterableT
  | .orderByPartN _ c => getType scope c
  | _ => none

/-- The type scope at `QueryNode.create` time: `BUILTIN_CONTEXT`
(`ast.py:610,639`) holds only the constants `null`, `current_time`,
`current_date`; lookup is case-insensitive. -/
def builtinTypeScope : TypeScope := fun s =>
  if lowerStr s ∈ ["null", "current_time", "current_date"] then some .otherT else none

/-! ## `QueryNode.create` (`ast.py:826-879`) -/

/-- Errors raised during `QueryNode.create`: the aggregate-in-WHERE
`LsqlEvalError` (`ast.py:858`), the `IllegalGroupBy` for aggregates in GROUP
BY (`ast.py:869`), and any other Python failure on the way (KeyError,
TypeError, AttributeError while resolving the FROM type or expanding `*`). -/
inductive CreateErr
  | aggregateInWhere
  | illegalGroupByCreate
  | createFailure
deriving Repr, DecidableEq

/-- The parser's raw clause results, each absent when the clause was not
written (`parser.py:157-179`). -/
structure RawQuery where
  selectRaw : Option Node
  fromRaw : Option Node
  whereRaw : Option Node
  groupRaw : Option Node
  havingRaw : Option Node
  orderRaw : Option Node
  limitRaw : Option Node
  offsetRaw : Option Node
deriving Repr

/-- A checked query: the eight children of `QueryNode` (`ast.py:874-879`). -/
structure Query where
  selectQ : Node
  fromQ : Node
  whereQ : Node
  groupQ : Node
  havingQ : Node
  orderQ : Node
  limitQ : Node
  offsetQ : Node
deriving Repr

/-- Implicit FROM (`ast.py:829-832`): default `cwd`, and a bare name or
literal is wrapped in `files(...)`. -/
def resolveFrom (f? : Option Node) : Node :=
  let f := f?.getD (.nameN "cwd")
  match f with
  | .nameN s => .functionN "files" [.nameN s]
  | .valueN v => .functionN "files" [.valueN v]
  | _ => f

/-- Grouping presence (`ast.py:859-865`): an absent GROUP BY becomes an empty
`Group` when select or order contains an aggregate, a `FakeGroup` when there
is also no HAVING, and an empty `Group` otherwise. -/
def groupDefault (raw : RawQuery) (selectN0 : Node) : Node :=
  match raw.groupRaw with
  | some g => g
  | none =>
    if (childrenOf selectN0 ++ childrenOf (raw.orderRaw.getD (.orderN []))).any hasAggCall then
      .groupN []
    else
      match raw.havingRaw with
      | none => .fakeGroupN
      | some _ => .groupN []

/-- `QueryNode.create` after FROM resolution and SELECT expansion
(`ast.py:848-879`): defaults, the aggregate ban in WHERE, grouping presence,
the aggregate ban in GROUP BY, then aggregate lifting over select, having and
order. -/
def createAfterSelect (raw : RawQuery) (fromN selectN0 : Node) : Except CreateErr Query :=
  let whereN := raw.whereRaw.getD (.valueN (.bool true))
  let orderN0 := raw.orderRaw.getD (.orderN [])
  let limitN := raw.limitRaw.getD (.valueN .inf)
  let offsetN := raw.offsetRaw.getD (.valueN (.int 0))
  if hasAggCall whereN then .error .aggregateInWhere
  else
    let groupN0 : Node := groupDefault raw selectN0
    if hasAggCall groupN0 then .error .illegalGroupByCreate
    else
      let havingN := raw.havingRaw.getD (.valueN (.bool true))
      let sc := liftAggs selectN0 0
      let hc := liftAggs havingN sc.2
      let oc := liftAggs orderN0 hc.2
      .ok ⟨sc.1, fromN, whereN, groupN0, hc.1, oc.1, limitN, offsetN⟩

/-- `SelectStarNode` test (`ast.py:834`). -/
def isSelectStar : Node → Bool
  | .selectStarN => true
  | _ => false

/-- `QueryNode.create` (`ast.py:826-879`): resolve FROM, compute its declared
type, expand `SELECT *` over the star columns or an absent SELECT over the
default columns (both only exist on the files-table type), then run the
remaining checks and rewrites. -/
def create (raw : RawQuery) : Except CreateErr Query :=
  let fromN := resolveFrom raw.fromRaw
  match getType builtinTypeScope fromN with
  | none => .error .createFailure
  | some fromTy =>
    match raw.selectRaw with
    | some s =>
      if isSelectStar s then
        if fromTy = .filesTableT then
          createAfterSelect raw fromN (.selectN (MAIN_ATTRS.map .nameN))
        else .error .createFailure
      else createAfterSelect raw fromN s
    | none =>
      if fromTy = .filesTableT then
        createAfterSelect raw fromN (.selectN [.nameN "name"])
      else .error .createFailure

/-- The FROM clauses the pipeline itself produces: absent, a bare name, or a
string/number literal (each resolves to the `files` virtual table). -/
def fromOk (raw : RawQuery) : Prop :=
  raw.fromRaw = none ∨ (∃ s, raw.fromRaw = some (.nameN s)) ∨
    (∃ v, raw.fromRaw = some (.valueN v))

/-- Whether the raw WHERE clause contains an aggregate call. -/
def whereHasAggB (raw : RawQuery) : Bool :=
  match raw.whereRaw with
  | some w => hasAggCall w
  | none => false

/-- Whether the raw GROUP BY clause contains an aggregate call. -/
def groupHasAggB (raw : RawQuery) : Bool :=
  match raw.groupRaw with
  | some g => hasAggCall g
  | none => false

theorem whereHasAggB_eq (raw : RawQuery) :
    whereHasAggB raw = hasAggCall (raw.whereRaw.getD (.valueN (.bool true))) := by
  cases h : raw.whereRaw <;> simp [whereHasAggB, h, hasAggCall]

theorem groupDefault_agg (raw : RawQuery) (sel : Node) :
    hasAggCall (groupDefault raw sel) = groupHasAggB raw := by
  cases hg : raw.groupRaw with
  | some g => simp [groupDefault, groupHasAggB, hg]
  | none =>
    simp only [groupDefault, groupHasAggB, hg]
    split
    · rfl
    · cases raw.havingRaw <;> rfl

theorem createAfterSelect_spec (raw : RawQuery) (fromN selectN0 : Node) :
    (createAfterSelect raw fromN selectN0 = .error .aggregateInWhere ↔
      whereHasAggB raw = true) ∧
    (whereHasAggB raw = false →
      (createAfterSelect raw fromN selectN0 = .error .illegalGroupByCreate ↔
        groupHasAggB raw = true)) ∧
    (whereHasAggB raw = false → groupHasAggB raw = false →
      ∃ q, createAfterSelect raw fromN selectN0 = .ok q) := by
  by_cases hw : hasAggCall (raw.whereRaw.getD (.valueN (.bool true))) = true
  · have h2 : whereHasAggB raw = true := by rw [whereHasAggB_eq]; exact hw
    have h1 : createAfterSelect raw fromN selectN0 = .error .aggregateInWhere := by
      unfold createAfterSelect
      simp [hw]
    refine ⟨by simp [h1, h2], ?_, ?_⟩
    · intro h
      rw [h2] at h
      simp at h
    · intro h
      rw [h2] at h
      simp at h
  · simp only [Bool.not_eq_true] at hw
    have h2 : whereHasAggB raw = false := by rw [whereHasAggB_eq]; exact hw
    by_cases hg : hasAggCall (groupDefault raw selectN0) = true
    · have hgb : groupHasAggB raw = true := by rw [← groupDefault_agg raw selectN0]; exact hg
      have h1 : createAfterSelect raw fromN selectN0 = .error .illegalGroupByCreate := by
        unfold createAfterSelect
        simp [hw, hg]
      refine ⟨by simp [h1, h2], fun _ => by simp [h1, hgb], ?_⟩
      intro _ hgf
      rw [hgb] at hgf
      simp at hgf
    · simp only [Bool.not_eq_true] at hg
      have hgb : groupHasAggB raw = false := by rw [← groupDefault_agg raw selectN0]; exact hg
      have h1 : ∃ q, createAfterSelect raw fromN selectN0 = .ok q := by
        unfold createAfterSelect
        simp only [hw, hg, Bool.false_eq_true, if_false]
        exact ⟨_, rfl⟩
      obtain ⟨q, hq⟩ := h1
      exact ⟨by simp [hq, h2], fun _ => by simp [hq, hgb], fun _ _ => ⟨q, hq⟩⟩

theorem create_reduces (raw : RawQuery) (hfrom : fromOk raw) :
    ∃ sel, create raw = createAfterSelect raw (resolveFrom raw.fromRaw) sel := by
  have hty : getType builtinTypeScope (resolveFrom raw.fromRaw) = some .filesTableT := by
    rcases hfrom with h | ⟨s, h⟩ | ⟨v, h⟩ <;> rw [h] <;> rfl
  cases hs : raw.selectRaw with
  | none => exact ⟨.selectN [.nameN "name"], by simp [create, hty, hs]⟩
  | some s =>
    by_cases hstar : isSelectStar s = true
    · exact ⟨.selectN (MAIN_ATTRS.map .nameN), by simp [create, hty, hs, hstar]⟩
    · simp only [Bool.not_eq_true] at hstar
      exact ⟨s, by simp [create, hty, hs, hstar]⟩

/-- C6 (amended): for a query whose FROM clause is one of the forms the
pipeline produces for the files table, construction fails with the
aggregate-in-WHERE error iff the WHERE expression has an aggregate-call
descendant; when the WHERE check passes, it fails with IllegalGroupBy iff the
GROUP BY clause has an aggregate-call descendant; when neither holds, both
checks pass and construction succeeds. -/
theorem create_agg_checks (raw : RawQuery) (hfrom : fromOk raw) :
    (create raw = .error .aggregateInWhere ↔ whereHasAggB raw = true) ∧
    (whereHasAggB raw = false →
      (create raw = .error .illegalGroupByCreate ↔ groupHasAggB raw = true)) ∧
    (whereHasAggB raw = false → groupHasAggB raw = false →
      ∃ q, create raw = .ok q) := by
  obtain ⟨sel, hsel⟩ := create_reduces raw hfrom
  rw [hsel]
  exact createAfterSelect_spec raw _ sel

/-- C6 counterexample to the claim as stated: with an aggregate call in both
WHERE and GROUP BY, construction fails with the aggregate-in-WHERE error, not
with IllegalGroupBy — the WHERE check runs first. -/
theorem create_agg_checks_where_first :
    create ⟨some (.selectN [.nameN "name"]), none,
            some (.functionN "count" [.valueN (.int 1)]),
            some (.groupN [.functionN "count" [.valueN (.int 1)]]),
            none, none, none, none⟩ = .error .aggregateInWhere ∧
    CreateErr.aggregateInWhere ≠ CreateErr.illegalGroupByCreate := by
  exact ⟨rfl, by decide⟩

/-- Witness for C6 at a concrete query (aggregate in GROUP BY only). -/
theorem create_agg_checks_witness :
    create ⟨some (.selectN [.nameN "name"]), none, none,
            some (.groupN [.functionN "count" [.valueN (.int 1)]]),
            none, none, none, none⟩ = .error .illegalGroupByCreate := by
  have h := (create_agg_checks
    ⟨some (.selectN [.nameN "name"]), none, none,
     some (.groupN [.functionN "count" [.valueN (.int 1)]]),
     none, none, none, none⟩ (Or.inl rfl)).2.1 (by rfl)
  exact h.mpr (by rfl)

/-! ## Contexts, rows and the accumulator store -/

/-- A runtime context layer: an association list with lowercase keys
(`Namespace.prepare_key` lowercases on construction, `ast.py:28-47`; the
file-stat column names are lowercase).  `CombinedContext` layering becomes
list append, first hit wins. -/
abbrev Ctx : Type := List (String × Value)

/-- Case-insensitive lookup (`Namespace.__getitem__`, `FilesTableContext`). -/
def ctxLookup (ctx : Ctx) (key : String) : Option Value :=
  ctx.lookup (lowerStr key)

/-- A row of the virtual table: the file-stat columns with their values.  The
directory walker that produces rows is an external collaborator; the
evaluator is verified over an arbitrary list of rows standing for what
`files(...)` yields. -/
abbrev Row : Type := List (String × Value)

/-- One accumulator object, addressed by the `aggIdx` of its owning
`AggFunctionNode`. -/
inductive AggAcc where
  | countA (a : CountAggregate)
  | sumA (a : SumAggregate)
  | maxA (a : MaxAggregate)
  | minA (a : MinAggregate)
  | avgA (a : AvgAggregate)
deriving Repr

/-- The evaluator-side store of accumulator states (object identity in the
source becomes the index). -/
abbrev AggStore : Type := List (Nat × AggAcc)

def storeGet (st : AggStore) (i : Nat) : Option AggAcc :=
  st.lookup i

def storeSet (st : AggStore) (i : Nat) (a : AggAcc) : AggStore :=
  st.map fun p => if p.1 = i then (p.1, a) else p

/-- `Aggregate.add` dispatch. -/
def aggAdd : AggAcc → Value → Option AggAcc
  | .countA a, v => some (.countA (a.add v))
  | .sumA a, v => (a.add v).map .sumA
  | .maxA a, v => some (.maxA (a.add v))
  | .minA a, v => some (.minA (a.add v))
  | .avgA a, v => (a.add v).map .avgA

/-- `Aggregate.value` dispatch. -/
def aggValue : AggAcc → Option Value
  | .countA a => some a.value
  | .sumA a => some a.value
  | .maxA a => some a.value
  | .minA a => some a.value
  | .avgA a => a.value

/-- A fresh accumulator for an aggregate name (`AGGREGATES[...]()`,
`ast.py:602-608`, case-sensitive dict). -/
def freshAcc : String → Option AggAcc
  | "count" => some (.countA .init)
  | "sum" => some (.sumA .init)
  | "max" => some (.maxA .init)
  | "min" => some (.minA .init)
  | "avg" => some (.avgA .init)
  | _ => none

/-! ## Expression evaluation (`Node.get_value`) -/

mutual
/-- `Node.get_value` (`ast.py`): literals return their value, names look up
the layered context (KeyError is failure), function calls evaluate arguments
left to right then apply the `FUNCTIONS` entry, aggregate calls feed their
accumulator and return its running value, `and`/`or` are Python
`all`/`any` over the two operands (short-circuit, bool result), `BETWEEN` is
the chained comparison `lo <= v <= hi` (short-circuit after a false first
half), order-by parts delegate to their child.  Clause nodes inherit the
`NotImplementedError` default. -/
def evalNode : Node → Ctx → AggStore → Option (Value × AggStore)
  | .valueN v, _, st => some (v, st)
  | .nameN s, ctx, st =>
    match ctxLookup ctx s with
    | some v => some (v, st)
    | none => none
  | .arrayN ns, ctx, st =>
    match evalNodeList ns ctx st with
    | some (vs, st1) => some (.list vs, st1)
    | none => none
  | .functionN f args, ctx, st =>
    match evalNodeList args ctx st with
    | some (vs, st1) =>
      match FUNCTIONS_lookup f with
      | some fn =>
        match fn vs with
        | some v => some (v, st1)
        | none => none
      | none => none
    | none => none
  | .aggFunctionN _ idx args, ctx, st =>
    match evalNodeList args ctx st with
    | some ([v], st1) =>
      match storeGet st1 idx with
      | some acc =>
        match aggAdd acc v with
        | some acc1 =>
          match aggValue acc1 with
          | some out => some (out, storeSet st1 idx acc1)
          | none => none
        | none => none
      | none => none
    | some (_, _) => none
    | none => none
  | .andN l r, ctx, st =>
    match evalNode l ctx st with
    | some (lv, st1) =>
      if truthy lv then
        match evalNode r ctx st1 with
        | some (rv, st2) => some (.bool (truthy rv), st2)
        | none => none
      else some (.bool false, st1)
    | none => none
  | .orN l r, ctx, st =>
    match evalNode l ctx st with
    | some (lv, st1) =>
      if truthy lv then some (.bool true, st1)
      else
        match evalNode r ctx st1 with
        | some (rv, st2) => some (.bool (truthy rv), st2)
        | none => none
    | none => none
  | .betweenN v lo hi, ctx, st =>
    match evalNode lo ctx st with
    | some (lov, st1) =>
      match evalNode v ctx st1 with
      | some (vv, st2) =>
        if pyLe lov vv then
          match evalNode hi ctx st2 with
          | some (hiv, st3) => some (.bool (pyLe vv hiv), st3)
          | none => none
        else some (.bool false, st2)
      | none => none
    | none => none
  | .orderByPartN _ c, ctx, st => evalNode c ctx st
  | .selectStarN, _, _ => none
  | .selectN _, _, _ => none
  | .orderN _, _, _ => none
  | .groupN _, _, _ => none
  | .fakeGroupN, _, _ => none

/-- Left-to-right evaluation of a node list, threading the store. -/
def evalNodeList : List Node → Ctx → AggStore → Option (List Value × AggStore)
  | [], _, st => some ([], st)
  | n :: ns, ctx, st =>
    match evalNode n ctx st with
    | some (v, st1) =>
      match evalNodeList ns ctx st1 with
      | some (vs, st2) => some (v :: vs, st2)
      | none => none
    | none => none
end

/-! ## The final sort (`sorted(zip(keys, rows))`, `ast.py:1010`) -/

/-- Insert behind every strictly-smaller element: the characteristic step of a
stable sort with a strict `<` comparison, as CPython's `sorted` performs. -/
def insTail (lt : α → α → Bool) (a : α) : List α → List α
  | [] => [a]
  | b :: bs => if lt b a then b :: insTail lt a bs else a :: b :: bs

/-- A stable sort by a strict `<` comparison, modelling Python `sorted`. -/
def insSort (lt : α → α → Bool) : List α → List α
  | [] => []
  | x :: xs => insTail lt x (insSort lt xs)

/-- `OrderByKey.__lt__` (`ast.py:776-789`): walk the columns left to right
with the per-column direction; equal values continue, otherwise `<` (ASC) or
`>` (DESC) decides. -/
def okLt (dirs : List Int) : List Value → List Value → Bool
  | x :: xs, y :: ys =>
    match dirs with
    | d :: ds =>
      if pyEq x y then okLt ds xs ys
      else if d = 1 then pyLt x y else pyGt x y
    | [] => false
  | _, _ => false

/-- Python tuple `<` on `(OrderByKey, row)` pairs: `OrderByKey.__eq__`
compares the key rows (`ast.py:791-792`); on equal keys the tuple comparison
falls through to the row lists themselves. -/
def pairLt (dirs : List Int) (a b : List Value × List Value) : Bool :=
  if pyEqList a.1 b.1 then pyLtList a.2 b.2 else okLt dirs a.1 b.1

/-- The final sort of `QueryNode.get_value`:
`rows = [row for _, row in sorted(zip(keys, rows))]` (`ast.py:1010`). -/
def pySortRows (dirs : List Int) (keys rows : List (List Value)) : List (List Value) :=
  (insSort (pairLt dirs) (keys.zip rows)).map Prod.snd

/-! ## Slicing (`ast.py:1011-1014`) -/

/-- A Python list slice index: int or bool; anything else is a TypeError. -/
def pySliceIdx : Value → Option Int
  | .int n => some n
  | .bool b => some (if b then 1 else 0)
  | _ => none

/-- `rows[k:]` with Python semantics for negative indices. -/
def pyDropSlice (l : List (List Value)) (k : Int) : List (List Value) :=
  if 0 ≤ k then l.drop k.toNat else l.drop ((l.length + k).toNat)

/-- `rows[:m]` with Python semantics for negative indices. -/
def pyTakeSlice (l : List (List Value)) (m : Int) : List (List Value) :=
  if 0 ≤ m then l.take m.toNat else l.take ((l.length + m).toNat)

/-! ## Schema derivation (`ast.py:933-936`, `1018-1021`) -/

/-- `get_name(node, 'column_<i>')`. -/
def derivedColName (i : Nat) : Node → String
  | .nameN s => s
  | _ => "column_" ++ toString i

/-- The derived column names of a select list, in order. -/
def derivedNamesGo : List Node → Nat → List String
  | [], _ => []
  | n :: ns, i => derivedColName i n :: derivedNamesGo ns (i + 1)

/-- `OrderedDict` insertion: an existing key keeps its position and gets the
new value, a new key is appended. -/
def odInsert (acc : List (String × PyType)) (k : String) (t : PyType) :
    List (String × PyType) :=
  if acc.any (fun p => p.1 == k) then
    acc.map fun p => if p.1 == k then (k, t) else p
  else acc ++ [(k, t)]

/-- The type scope of `select_context = CombinedContext(Context(
from_type.as_dict()), context)` (`ast.py:932`): column types first, then the
runtime values of the outer context (whose identity no claim inspects). -/
def selectTypeScope (outer : Ctx) : TypeScope := fun s =>
  match STAT_TYPES.lookup (lowerStr s) with
  | some t => some t
  | none => if (ctxLookup outer s).isSome then some .otherT else none

/-- The `row_type` loop (`ast.py:933-936`): one `get_type` per select child,
inserted under its derived name; a `get_type` failure aborts. -/
def rowTypeGo (scope : TypeScope) :
    List Node → Nat → List (String × PyType) → Option (List (String × PyType))
  | [], _, acc => some acc
  | n :: ns, i, acc =>
    match getType scope n with
    | some t => rowTypeGo scope ns (i + 1) (odInsert acc (derivedColName i n) t)
    | none => none

/-! ## GROUP BY legality at evaluation time (`ast.py:916-931`) -/

/-- `AggFunctionNode` test (`isinstance(..., AggFunctionNode)`). -/
def isAggNode : Node → Bool
  | .aggFunctionN _ _ _ => true
  | _ => false

/-- Membership of a node in the group children, with Python's `in`
orientation (`element == value`). -/
def inGroupChildren (groupCh : List Node) (n : Node) : Bool :=
  groupCh.any fun g => nodeEq g n

mutual
/-- The name check of `ast.py:922-927` over one clause subtree: an occurrence
of a `NameNode` fails when its identifier is a column of the from-type
(case-insensitively), it has no `AggFunctionNode` ancestor within the clause,
and neither it nor any ancestor up to the clause root equals (`==`) a GROUP
BY child.  `chainClear` records that no ancestor so far equals a group child;
`underAgg` records an `AggFunctionNode` ancestor. -/
def nameCheckFails (groupCh : List Node) (chainClear underAgg : Bool) : Node → Bool
  | .nameN s =>
    (STAT_TYPES.lookup (lowerStr s)).isSome && !underAgg &&
      (chainClear && !inGroupChildren groupCh (.nameN s))
  | .valueN _ => false
  | .arrayN ns =>
    nameCheckListFails groupCh
      (chainClear && !inGroupChildren groupCh (.arrayN ns)) underAgg ns
  | .functionN f args =>
    nameCheckListFails groupCh
      (chainClear && !inGroupChildren groupCh (.functionN f args)) underAgg args
  | .aggFunctionN f i args =>
    nameCheckListFails groupCh
      (chainClear && !inGroupChildren groupCh (.aggFunctionN f i args)) true args
  | .andN l r =>
    nameCheckFails groupCh (chainClear && !inGroupChildren groupCh (.andN l r)) underAgg l ||
      nameCheckFails groupCh (chainClear && !inGroupChildren groupCh (.andN l r)) underAgg r
  | .orN l r =>
    nameCheckFails groupCh (chainClear && !inGroupChildren groupCh (.orN l r)) underAgg l ||
      nameCheckFails groupCh (chainClear && !inGroupChildren groupCh (.orN l r)) underAgg r
  | .betweenN v lo hi =>
    nameCheckFails groupCh (chainClear && !inGroupChildren groupCh (.betweenN v lo hi)) underAgg v ||
      (nameCheckFails groupCh (chainClear && !inGroupChildren groupCh (.betweenN v lo hi)) underAgg lo ||
        nameCheckFails groupCh (chainClear && !inGroupChildren groupCh (.betweenN v lo hi)) underAgg hi)
  | .orderByPartN d c =>
    nameCheckFails groupCh (chainClear && !inGroupChildren groupCh (.orderByPartN d c)) underAgg c
  | .selectStarN => false
  | .selectN ns =>
    nameCheckListFails groupCh
      (chainClear && !inGroupChildren groupCh (.selectN ns)) underAgg ns
  | .orderN ns =>
    nameCheckListFails groupCh
      (chainClear && !inGroupChildren groupCh (.orderN ns)) underAgg ns
  | .groupN ns =>
    nameCheckListFails groupCh
      (chainClear && !inGroupChildren groupCh (.groupN ns)) underAgg ns
  | .fakeGroupN => false

def nameCheckListFails (groupCh : List Node) (chainClear underAgg : Bool) :
    List Node → Bool
  | [] => false
  | n :: ns =>
    nameCheckFails groupCh chainClear underAgg n ||
      nameCheckListFails groupCh chainClear underAgg ns
end

mutual
/-- The nested-aggregate check of `ast.py:928-931`: an `AggFunctionNode` with
an `AggFunctionNode` ancestor is illegal. -/
def nestedAggFails (underAgg : Bool) : Node → Bool
  | .aggFunctionN _ _ args => underAgg || nestedAggListFails true args
  | .functionN _ args => nestedAggListFails underAgg args
  | .arrayN ns => nestedAggListFails underAgg ns
  | .andN l r => nestedAggFails underAgg l || nestedAggFails underAgg r
  | .orN l r => nestedAggFails underAgg l || nestedAggFails underAgg r
  | .betweenN v lo hi =>
    nestedAggFails underAgg v || (nestedAggFails underAgg lo || nestedAggFails underAgg hi)
  | .orderByPartN _ c => nestedAggFails underAgg c
  | .selectN ns => nestedAggListFails underAgg ns
  | .orderN ns => nestedAggListFails underAgg ns
  | .groupN ns => nestedAggListFails underAgg ns
  | .valueN _ => false
  | .nameN _ => false
  | .selectStarN => false
  | .fakeGroupN => false

def nestedAggListFails (underAgg : Bool) : List Node → Bool
  | [] => false
  | n :: ns => nestedAggFails underAgg n || nestedAggListFails underAgg ns
end

/-- The whole grouping legality check (`ast.py:916-931`), run only when the
group node is a real `Group`. -/
def groupCheckFails (q : Query) : Bool :=
  let gs := childrenOf q.groupQ
  nameCheckFails gs true false q.selectQ ||
    nameCheckFails gs true false q.havingQ ||
    nameCheckFails gs true false q.orderQ ||
    nestedAggFails false q.selectQ ||
    nestedAggFails false q.havingQ ||
    nestedAggFails false q.orderQ

/-! ## Collecting accumulators (`get_agg_function_nodes`, `ast.py:130-133`) -/

mutual
/-- All `(aggIdx, name)` pairs of `AggFunctionNode`s in a tree. -/
def collectAggs : Node → List (Nat × String)
  | .aggFunctionN f i args => (i, f) :: collectAggsList args
  | .functionN _ args => collectAggsList args
  | .arrayN ns => collectAggsList ns
  | .andN l r => collectAggs l ++ collectAggs r
  | .orN l r => collectAggs l ++ collectAggs r
  | .betweenN v lo hi => collectAggs v ++ (collectAggs lo ++ collectAggs hi)
  | .orderByPartN _ c => collectAggs c
  | .selectN ns => collectAggsList ns
  | .orderN ns => collectAggsList ns
  | .groupN ns => collectAggsList ns
  | .valueN _ => []
  | .nameN _ => []
  | .selectStarN => []
  | .fakeGroupN => []

def collectAggsList : List Node → List (Nat × String)
  | [] => []
  | n :: ns => collectAggs n ++ collectAggsList ns
end

/-- All aggregate nodes of a query (the walk over `self` visits all eight
children). -/
def queryAggs (q : Query) : List (Nat × String) :=
  collectAggs q.selectQ ++ collectAggs q.fromQ ++ collectAggs q.whereQ ++
    collectAggs q.groupQ ++ collectAggs q.havingQ ++ collectAggs q.orderQ ++
    collectAggs q.limitQ ++ collectAggs q.offsetQ

/-- The initial accumulator store: one fresh accumulator per aggregate node,
as `AggFunctionNode.create` embeds at construction time. -/
def initStore : List (Nat × String) → Option AggStore
  | [] => some []
  | (i, f) :: rest =>
    match freshAcc f with
    | some a =>
      match initStore rest with
      | some st => some ((i, a) :: st)
      | none => none
    | none => none

/-- `agg_node.clear_aggregate()` for every aggregate node (`ast.py:970-971`):
reset each accumulator to a fresh instance. -/
def resetAggs (st : AggStore) : List (Nat × String) → Option AggStore
  | [] => some st
  | (i, f) :: rest =>
    match freshAcc f with
    | some a =>
      match resetAggs (storeSet st i a) rest with
      | some st1 => some st1
      | none => none
    | none => none

/-! ## The evaluator stages (`QueryNode.get_value`, `ast.py:913-1015`) -/

/-- A query result (`Table`, `ast.py:1030-1038`). -/
structure Table where
  rowType : List (String × PyType)
  rows : List (List Value)
deriving Repr

inductive EvalErr
  | illegalGroupBy
  | evalFail
deriving Repr, DecidableEq

/-- The filter stage (`ast.py:944-954`): for each row, evaluate WHERE in the
layered row context; for kept rows also evaluate the ORDER BY children to
build the sort key. -/
def filterStage (q : Query) (ctx : Ctx) :
    List Row → AggStore → Option (List (List Value) × List Row × AggStore)
  | [], st => some ([], [], st)
  | row :: rest, st =>
    match evalNode q.whereQ (row ++ ctx) st with
    | some (wv, st1) =>
      if truthy wv then
        match evalNodeList (childrenOf q.orderQ) (row ++ ctx) st1 with
        | some (kv, st2) =>
          match filterStage q ctx rest st2 with
          | some (ks, rs, st3) => some (kv :: ks, row :: rs, st3)
          | none => none
        | none => none
      else
        match filterStage q ctx rest st1 with
        | some (ks, rs, st2) => some (ks, rs, st2)
        | none => none
    | none => none

/-- Group a key-row pair into the bucket list (`defaultdict(list)` keyed by
the evaluated group-key tuple; NULL keys collapse because `NULL == NULL`). -/
def addToBucket (buckets : List (List Value × List Row)) (key : List Value)
    (row : Row) : List (List Value × List Row) :=
  match buckets with
  | [] => [(key, [row])]
  | (k, rs) :: rest =>
    if pyEqList k key then (k, rs ++ [row]) :: rest
    else (k, rs) :: addToBucket rest key row

/-- The grouping stage (`ast.py:959-967`), bucket order by first appearance
(Python 2 dict iteration order is hash-dependent; no claim depends on bucket
order). -/
def groupStage (groupCh : List Node) (ctx : Ctx) :
    List Row → List (List Value × List Row) → AggStore →
    Option (List (List Value × List Row) × AggStore)
  | [], acc, st => some (acc, st)
  | row :: rest, acc, st =>
    match evalNodeList groupCh (row ++ ctx) st with
    | some (key, st1) => groupStage groupCh ctx rest (addToBucket acc key row) st1
    | none => none

/-- One ORDER BY column inside the group loop (`ast.py:987-993`): when the
part's child `==`-equals a GROUP BY child, take the key component at its
index without evaluating; otherwise evaluate the part in the row context. -/
def orderColsGo (groupCh : List Node) (key : List Value) (rc : Ctx) :
    List Node → AggStore → Option (List Value × AggStore)
  | [], st => some ([], st)
  | p :: ps, st =>
    match p with
    | .orderByPartN d c =>
      if inGroupChildren groupCh c then
        match orderColsGo groupCh key rc ps st with
        | some (vs, st1) =>
          some (key.getD (groupCh.findIdx fun g => nodeEq g c) .null :: vs, st1)
        | none => none
      else
        match evalNode (.orderByPartN d c) rc st with
        | some (v, st1) =>
          match orderColsGo groupCh key rc ps st1 with
          | some (vs, st2) => some (v :: vs, st2)
          | none => none
        | none => none
    | _ => none

/-- One group's row loop (`ast.py:972-994`): per row, project every select
child (the source's `if node in self.group_node` tests membership among the
namedtuple fields `(data, children, location, parent)` of the group node and
never holds, so the select projection always re-evaluates the child), build
the ORDER BY columns, and evaluate HAVING; the last row's results stand. -/
def processGroup (q : Query) (groupCh : List Node) (key : List Value) (ctx : Ctx) :
    List Row → (List Value × List Value × Bool) → AggStore →
    Option ((List Value × List Value × Bool) × AggStore)
  | [], acc, st => some (acc, st)
  | row :: rest, _, st =>
    match evalNodeList (childrenOf q.selectQ) (row ++ ctx) st with
    | some (cur, st1) =>
      match orderColsGo groupCh key (row ++ ctx) (childrenOf q.orderQ) st1 with
      | some (ordr, st2) =>
        match evalNode q.havingQ (row ++ ctx) st2 with
        | some (cv, st3) => processGroup q groupCh key ctx rest (cur, ordr, truthy cv) st3
        | none => none
      | none => none
    | none => none

/-- The loop over groups (`ast.py:969-997`): clear the accumulators, process
the group's rows, and keep the projected row and its `OrderByKey` when the
last HAVING result is truthy. -/
def groupLoop (q : Query) (groupCh : List Node) (ctx : Ctx)
    (aggIdxs : List (Nat × String)) :
    List (List Value × List Row) → AggStore →
    Option (List (List Value) × List (List Value) × AggStore)
  | [], st => some ([], [], st)
  | (key, grows) :: rest, st =>
    match resetAggs st aggIdxs with
    | some st0 =>
      match processGroup q groupCh key ctx grows
          (List.replicate (childrenOf q.selectQ).length .null,
           List.replicate (childrenOf q.orderQ).length .null, false) st0 with
      | some ((cur, ordr, cond), st1) =>
        match groupLoop q groupCh ctx aggIdxs rest st1 with
        | some (ks, rs, st2) =>
          if cond then some (ordr :: ks, cur :: rs, st2) else some (ks, rs, st2)
        | none => none
      | none => none
    | none => none

/-- The FakeGroup branch (`ast.py:998-1008`): project the select children per
filtered row. -/
def fakeLoop (q : Query) (ctx : Ctx) :
    List Row → AggStore → Option (List (List Value) × AggStore)
  | [], st => some ([], st)
  | row :: rest, st =>
    match evalNodeList (childrenOf q.selectQ) (row ++ ctx) st with
    | some (cur, st1) =>
      match fakeLoop q ctx rest st1 with
      | some (rs, st2) => some (cur :: rs, st2)
      | none => none
    | none => none

/-- The per-column directions of the ORDER BY children
(`OrderByPartNode.direction`; the parser only produces part nodes here). -/
def orderDirs (q : Query) : List Int :=
  (childrenOf q.orderQ).map fun p =>
    match p with
    | .orderByPartN d _ => d
    | _ => 0

/-- The runtime type scope used for `from_node.get_type(context)`
(`ast.py:915`): names resolve to runtime values of the outer context. -/
def runtimeTypeScope (outer : Ctx) : TypeScope := fun s =>
  if (ctxLookup outer s).isSome then some .otherT else none

/-- `FakeGroupNode` test. -/
def isFakeGroup : Node → Bool
  | .fakeGroupN => true
  | _ => false

/-- The projection branch of `QueryNode.get_value`: either the FakeGroup
per-row projection (`ast.py:998-1008`, keeping the filter-stage keys) or the
group-and-aggregate path (`ast.py:956-997`, producing fresh keys). -/
def projectStage (q : Query) (ctx : Ctx) (frows : List Row)
    (fkeys : List (List Value)) (st1 : AggStore) :
    Option (List (List Value) × List (List Value) × AggStore) :=
  if isFakeGroup q.groupQ then
    match fakeLoop q ctx frows st1 with
    | some (rvals, st2) => some (fkeys, rvals, st2)
    | none => none
  else
    match groupStage (childrenOf q.groupQ) ctx frows [] st1 with
    | some (buckets, st2) =>
      match groupLoop q (childrenOf q.groupQ) ctx (queryAggs q) buckets st2 with
      | some (gkeys, rvals, st3) => some (gkeys, rvals, st3)
      | none => none
    | none => none

/-- `QueryNode.get_value` (`ast.py:913-1015`): resolve the from type (only
the files table reaches the later `as_dict`/membership uses; anything else
dies in a Python TypeError), run the grouping legality check for real
groups, derive the schema, filter, group or project, sort by
`(OrderByKey, row)` pairs, and slice by OFFSET/LIMIT.  `rows` stands for the
row stream of the `files(...)` from-expression (the directory walker is an
external collaborator). -/
def evalQuery (q : Query) (rows : List Row) (ctx : Ctx) : Except EvalErr Table :=
  match getType (runtimeTypeScope ctx) q.fromQ with
  | some .filesTableT =>
    if !isFakeGroup q.groupQ && groupCheckFails q then .error .illegalGroupBy
    else
      match rowTypeGo (selectTypeScope ctx) (childrenOf q.selectQ) 0 [] with
      | some rowTy =>
        match initStore (queryAggs q) with
        | some st0 =>
          match filterStage q ctx rows st0 with
          | some (fkeys, frows, st1) =>
            match projectStage q ctx frows fkeys st1 with
            | some (keys, rvals, st2) =>
              let sorted := pySortRows (orderDirs q) keys rvals
              match evalNode q.offsetQ ctx st2 with
              | some (ov, st3) =>
                match pySliceIdx ov with
                | some oi =>
                  let afterOffset := pyDropSlice sorted oi
                  match evalNode q.limitQ ctx st3 with
                  | some (lv, _) =>
                    if pyEq lv .inf then .ok ⟨rowTy, afterOffset⟩
                    else
                      match pySliceIdx lv with
                      | some li => .ok ⟨rowTy, pyTakeSlice afterOffset li⟩
                      | none => .error .evalFail
                  | none => .error .evalFail
                | none => .error .evalFail
              | none => .error .evalFail
            | none => .error .evalFail
          | none => .error .evalFail
        | none => .error .evalFail
      | none => .error .evalFail
  | _ => .error .evalFail


/-! ## Lemmas about the evaluator stages -/

theorem evalNodeList_length (ns : List Node) (ctx : Ctx) :
    ∀ (st : AggStore) (vs : List Value) (st1 : AggStore),
      evalNodeList ns ctx st = some (vs, st1) → vs.length = ns.length := by
  induction ns with
  | nil =>
    intro st vs st1 h
    unfold evalNodeList at h
    cases h
    rfl
  | cons n ns ih =>
    intro st vs st1 h
    unfold evalNodeList at h
    split at h
    · split at h
      · cases h
        simp only [List.length_cons]
        rw [ih _ _ _ (by assumption)]
      · cases h
    · cases h

theorem insTail_perm (lt : α → α → Bool) (a : α) (l : List α) :
    (insTail lt a l).Perm (a :: l) := by
  induction l with
  | nil => simp [insTail]
  | cons b bs ih =>
    unfold insTail
    split
    · exact (ih.cons b).trans (List.Perm.swap a b bs)
    · exact List.Perm.refl _

theorem insSort_perm (lt : α → α → Bool) (l : List α) : (insSort lt l).Perm l := by
  induction l with
  | nil => simp [insSort]
  | cons x xs ih =>
    unfold insSort
    exact (insTail_perm lt x (insSort lt xs)).trans (ih.cons x)

theorem pySortRows_mem (dirs : List Int) (keys rows : List (List Value))
    (r : List Value) (h : r ∈ pySortRows dirs keys rows) : r ∈ rows := by
  unfold pySortRows at h
  obtain ⟨⟨k, r'⟩, hmem, hr⟩ := List.mem_map.mp h
  cases hr
  exact (List.of_mem_zip ((insSort_perm _ _).mem_iff.mp hmem)).2

theorem sublist_insTail (lt : α → α → Bool) (a : α) (t : List α) :
    t.Sublist (insTail lt a t) := by
  induction t with
  | nil => simp [insTail]
  | cons b bs ih =>
    unfold insTail
    split
    · exact ih.cons₂ b
    · exact (List.Sublist.refl (b :: bs)).cons a

theorem insTail_keeps (lt : α → α → Bool) (x q : α) (hq : lt q x = false) :
    ∀ S : List α, [q].Sublist S → [x, q].Sublist (insTail lt x S) := by
  intro S
  induction S with
  | nil => intro h; cases h
  | cons b bs ih =>
    intro h
    have hmem : q ∈ b :: bs := List.singleton_sublist.mp h
    unfold insTail
    by_cases hb : lt b x = true
    · rw [if_pos hb]
      rcases List.mem_cons.mp hmem with hqb | hqmem
      · rw [hqb] at hq
        rw [hq] at hb
        cases hb
      · exact (ih (List.singleton_sublist.mpr hqmem)).cons _
    · rw [if_neg hb]
      exact h.cons₂ _

theorem insSort_stable (lt : α → α → Bool) (p q' : α)
    (hqp : lt q' p = false) :
    ∀ l : List α, [p, q'].Sublist l → [p, q'].Sublist (insSort lt l) := by
  intro l
  induction l with
  | nil => intro h; cases h
  | cons x xs ih =>
    intro h
    unfold insSort
    cases h with
    | cons _ h' => exact (ih h').trans (sublist_insTail lt _ _)
    | cons₂ _ h' =>
      have hqmem : q' ∈ insSort lt xs :=
        (insSort_perm lt xs).mem_iff.mpr (List.singleton_sublist.mp h')
      exact insTail_keeps lt _ q' hqp _ (List.singleton_sublist.mpr hqmem)

/-- C3 (amended): the final sort orders the `(OrderByKey, row)` pairs; two
output rows preserve their relative order whenever neither pair compares less
than the other (in particular when key AND row contents are equal).  Equal
keys alone do not preserve stream order: on a key tie the pair comparison
falls through to the projected row contents (see the counterexample). -/
theorem pySortRows_stable (dirs : List Int) (keys rows : List (List Value))
    (k1 r1 k2 r2 : List Value)
    (hsub : [(k1, r1), (k2, r2)].Sublist (keys.zip rows))
    (h21 : pairLt dirs (k2, r2) (k1, r1) = false) :
    [r1, r2].Sublist (pySortRows dirs keys rows) := by
  unfold pySortRows
  have h := insSort_stable (pairLt dirs) (k1, r1) (k2, r2) h21 (keys.zip rows) hsub
  have hmap := h.map Prod.snd
  simpa using hmap

/-- Witness for the C3 amended theorem at a concrete sort. -/
theorem pySortRows_stable_witness :
    [[Value.int 7], [Value.int 7]].Sublist
      (pySortRows [1] [[Value.int 1], [Value.int 1]] [[Value.int 7], [Value.int 7]]) :=
  pySortRows_stable [1] [[Value.int 1], [Value.int 1]] [[Value.int 7], [Value.int 7]]
    [Value.int 1] [Value.int 7] [Value.int 1] [Value.int 7]
    (List.Sublist.refl _) (by rfl)

/-- C3 counterexample: two rows passing the filter in stream order
`name = "b"`, then `name = "a"`, ordered by the constant key `1` (all sort
keys equal), come out reordered by their contents: the evaluator sorts
`(key, row)` tuples, so equal keys fall through to comparing the rows. -/
theorem order_stability_cex :
    ∃ q t, create ⟨some (.selectN [.nameN "name"]), none, none, none, none,
        some (.orderN [.orderByPartN 1 (.valueN (.int 1))]), none, none⟩ = .ok q ∧
      evalQuery q [[("name", .str "b")], [("name", .str "a")]]
        [("cwd", .str ".")] = .ok t ∧
      t.rows = [[.str "a"], [.str "b"]] ∧
      t.rows ≠ [[.str "b"], [.str "a"]] := by
  refine ⟨_, _, rfl, rfl, rfl, ?_⟩
  intro h
  have h2 : ([[Value.str "a"], [Value.str "b"]] : List (List Value)) =
      [[Value.str "b"], [Value.str "a"]] := h
  injection h2 with hh _
  injection hh with hv _
  injection hv with hs
  exact absurd hs (by decide)

/-! ## C2: schema length and row widths -/

/-- Spec-side schema-name fold, from the claim's words: the ordered mapping
keeps the first occurrence of each derived column name. -/
def firstOccGo (acc : List String) : List String → List String
  | [] => acc
  | n :: ns =>
    if acc.any (fun m => m == n) then firstOccGo acc ns
    else firstOccGo (acc ++ [n]) ns

/-- The distinct derived column names in first-occurrence order. -/
def firstOccurrences (names : List String) : List String := firstOccGo [] names

theorem map_fst_update (acc : List (String × PyType)) (k : String) (t : PyType) :
    ((acc.map fun p => if p.1 == k then (k, t) else p).map Prod.fst) =
      acc.map Prod.fst := by
  induction acc with
  | nil => rfl
  | cons p ps ih =>
    simp only [List.map_cons, ih]
    by_cases h : (p.1 == k) = true
    · rw [if_pos h]
      have hk : p.1 = k := beq_iff_eq.mp h
      rw [hk]
    · rw [if_neg h]

theorem odInsert_fst (acc : List (String × PyType)) (k : String) (t : PyType) :
    (odInsert acc k t).map Prod.fst =
      if acc.any (fun p => p.1 == k) then acc.map Prod.fst
      else acc.map Prod.fst ++ [k] := by
  unfold odInsert
  by_cases h : acc.any (fun p => p.1 == k)
  · rw [if_pos h, if_pos h, map_fst_update]
  · rw [if_neg h, if_neg h]
    simp

theorem any_map_fst (acc : List (String × PyType)) (k : String) :
    ((acc.map Prod.fst).any fun m => m == k) = acc.any fun p => p.1 == k := by
  induction acc with
  | nil => rfl
  | cons p ps ih => simp [ih]

theorem rowTypeGo_names (scope : TypeScope) (ns : List Node) :
    ∀ (i : Nat) (acc l : List (String × PyType)),
      rowTypeGo scope ns i acc = some l →
      l.map Prod.fst = firstOccGo (acc.map Prod.fst) (derivedNamesGo ns i) := by
  induction ns with
  | nil =>
    intro i acc l h
    unfold rowTypeGo at h
    cases h
    rfl
  | cons n ns ih =>
    intro i acc l h
    unfold rowTypeGo at h
    cases hty : getType scope n with
    | none => rw [hty] at h; cases h
    | some ty =>
      rw [hty] at h
      have hrec := ih (i + 1) _ l h
      rw [hrec, odInsert_fst]
      have hd : derivedNamesGo (n :: ns) i =
          derivedColName i n :: derivedNamesGo ns (i + 1) := rfl
      have hstep : ∀ (a : List String) (m : String) (ms : List String),
          firstOccGo a (m :: ms) =
            if a.any (fun x => x == m) then firstOccGo a ms
            else firstOccGo (a ++ [m]) ms := fun a m ms => rfl
      rw [hd, hstep]
      by_cases hc : (acc.any fun p => p.1 == derivedColName i n) = true
      · rw [if_pos hc, if_pos (by rw [any_map_fst]; exact hc)]
      · rw [if_neg hc, if_neg (by rw [any_map_fst]; exact hc)]

theorem derivedNamesGo_length (ns : List Node) :
    ∀ i, (derivedNamesGo ns i).length = ns.length := by
  induction ns with
  | nil => intro i; rfl
  | cons n ns ih => intro i; simp [derivedNamesGo, ih]

theorem firstOccGo_of_nodup (names : List String) :
    ∀ acc, names.Nodup → (∀ n ∈ names, (acc.any fun m => m == n) = false) →
      firstOccGo acc names = acc ++ names := by
  induction names with
  | nil => intro acc _ _; simp [firstOccGo]
  | cons n ns ih =>
    intro acc hnd hdisj
    unfold firstOccGo
    rw [hdisj n (List.mem_cons_self n ns), if_neg (by simp)]
    rw [ih (acc ++ [n]) hnd.of_cons]
    · simp
    · intro m hm
      have h1 : (acc.any fun x => x == m) = false := hdisj m (List.mem_cons_of_mem n hm)
      have h2 : n ≠ m := fun he => (List.nodup_cons.mp hnd).1 (he ▸ hm)
      simp [List.any_append, h1, h2]

theorem fakeLoop_lengths (q : Query) (ctx : Ctx) :
    ∀ (rows : List Row) (st : AggStore) (res : List (List Value)) (st1 : AggStore),
      fakeLoop q ctx rows st = some (res, st1) →
      ∀ r ∈ res, r.length = (childrenOf q.selectQ).length := by
  intro rows
  induction rows with
  | nil =>
    intro st res st1 h r hr
    unfold fakeLoop at h
    cases h
    cases hr
  | cons row rest ih =>
    intro st res st1 h r hr
    unfold fakeLoop at h
    cases hev : evalNodeList (childrenOf q.selectQ) (row ++ ctx) st with
    | none => rw [hev] at h; cases h
    | some p =>
      obtain ⟨cur, stx⟩ := p
      rw [hev] at h
      dsimp only at h
      cases hrec : fakeLoop q ctx rest stx with
      | none => rw [hrec] at h; cases h
      | some p2 =>
        obtain ⟨rs, sty⟩ := p2
        rw [hrec] at h
        dsimp only at h
        cases h
        rcases List.mem_cons.mp hr with h1 | h2
        · rw [h1]
          exact evalNodeList_length _ _ _ _ _ hev
        · exact ih _ _ _ hrec r h2

theorem processGroup_len (q : Query) (groupCh : List Node) (key : List Value)
    (ctx : Ctx) :
    ∀ (rows : List Row) (acc : List Value × List Value × Bool) (st : AggStore)
      (out : List Value × List Value × Bool) (st1 : AggStore),
      processGroup q groupCh key ctx rows acc st = some (out, st1) →
      acc.1.length = (childrenOf q.selectQ).length →
      out.1.length = (childrenOf q.selectQ).length := by
  intro rows
  induction rows with
  | nil =>
    intro acc st out st1 h hlen
    unfold processGroup at h
    cases h
    exact hlen
  | cons row rest ih =>
    intro acc st out st1 h hlen
    unfold processGroup at h
    cases hev : evalNodeList (childrenOf q.selectQ) (row ++ ctx) st with
    | none => rw [hev] at h; cases h
    | some p =>
      obtain ⟨cur, stx⟩ := p
      rw [hev] at h
      dsimp only at h
      cases hoc : orderColsGo groupCh key (row ++ ctx) (childrenOf q.orderQ) stx with
      | none => rw [hoc] at h; cases h
      | some p2 =>
        obtain ⟨ordr, sty⟩ := p2
        rw [hoc] at h
        dsimp only at h
        cases hhv : evalNode q.havingQ (row ++ ctx) sty with
        | none => rw [hhv] at h; cases h
        | some p3 =>
          obtain ⟨cv, stz⟩ := p3
          rw [hhv] at h
          dsimp only at h
          exact ih _ _ _ _ h (evalNodeList_length _ _ _ _ _ hev)

theorem groupLoop_lengths (q : Query) (groupCh : List Node) (ctx : Ctx)
    (aggIdxs : List (Nat × String)) :
    ∀ (buckets : List (List Value × List Row)) (st : AggStore)
      (ks rs : List (List Value)) (st1 : AggStore),
      groupLoop q groupCh ctx aggIdxs buckets st = some (ks, rs, st1) →
      ∀ r ∈ rs, r.length = (childrenOf q.selectQ).length := by
  intro buckets
  induction buckets with
  | nil =>
    intro st ks rs st1 h r hr
    unfold groupLoop at h
    cases h
    cases hr
  | cons b rest ih =>
    intro st ks rs st1 h r hr
    obtain ⟨key, grows⟩ := b
    unfold groupLoop at h
    cases hra : resetAggs st aggIdxs with
    | none => rw [hra] at h; cases h
    | some st0 =>
      rw [hra] at h
      dsimp only at h
      cases hp : processGroup q groupCh key ctx grows
          (List.replicate (childrenOf q.selectQ).length .null,
           List.replicate (childrenOf q.orderQ).length .null, false) st0 with
      | none => rw [hp] at h; cases h
      | some p =>
        obtain ⟨⟨cur, ordr, cond⟩, stx⟩ := p
        rw [hp] at h
        dsimp only at h
        cases hrec : groupLoop q groupCh ctx aggIdxs rest stx with
        | none => rw [hrec] at h; cases h
        | some p2 =>
          obtain ⟨ks2, rs2, sty⟩ := p2
          rw [hrec] at h
          dsimp only at h
          by_cases hc : cond = true
          · rw [hc] at h
            simp only [if_true] at h
            cases h
            rcases List.mem_cons.mp hr with h1 | h2
            · rw [h1]
              exact processGroup_len q groupCh key ctx grows _ _ _ _ hp
                (by simp)
            · exact ih _ _ _ _ hrec r h2
          · simp only [Bool.not_eq_true] at hc
            rw [hc] at h
            simp only [Bool.false_eq_true, if_false] at h
            cases h
            exact ih _ _ _ _ hrec r hr

theorem projectStage_lengths (q : Query) (ctx : Ctx) (frows : List Row)
    (fkeys : List (List Value)) (st1 : AggStore) (keys rvals : List (List Value))
    (st2 : AggStore)
    (h : projectStage q ctx frows fkeys st1 = some (keys, rvals, st2)) :
    ∀ r ∈ rvals, r.length = (childrenOf q.selectQ).length := by
  unfold projectStage at h
  by_cases hf : isFakeGroup q.groupQ = true
  · rw [hf] at h
    simp only [if_true] at h
    cases hev : fakeLoop q ctx frows st1 with
    | none => rw [hev] at h; cases h
    | some p =>
      obtain ⟨rv, stx⟩ := p
      rw [hev] at h
      cases h
      exact fakeLoop_lengths q ctx frows _ _ _ hev
  · simp only [Bool.not_eq_true] at hf
    rw [hf] at h
    simp only [Bool.false_eq_true, if_false] at h
    cases hgs : groupStage (childrenOf q.groupQ) ctx frows [] st1 with
    | none => rw [hgs] at h; cases h
    | some p =>
      obtain ⟨buckets, stx⟩ := p
      rw [hgs] at h
      dsimp only at h
      cases hgl : groupLoop q (childrenOf q.groupQ) ctx (queryAggs q) buckets stx with
      | none => rw [hgl] at h; cases h
      | some p2 =>
        obtain ⟨gk, rv, sty⟩ := p2
        rw [hgl] at h
        dsimp only at h
        cases h
        exact groupLoop_lengths q _ ctx _ buckets _ _ _ _ hgl

theorem pyDropSlice_mem (l : List (List Value)) (k : Int) (r : List Value)
    (h : r ∈ pyDropSlice l k) : r ∈ l := by
  unfold pyDropSlice at h
  split at h <;> exact List.mem_of_mem_drop h

theorem pyTakeSlice_mem (l : List (List Value)) (k : Int) (r : List Value)
    (h : r ∈ pyTakeSlice l k) : r ∈ l := by
  unfold pyTakeSlice at h
  split at h <;> exact List.mem_of_mem_take h

/-- C2 (amended): whenever a query evaluates successfully, the schema's
column names are the *distinct* derived names in first-occurrence order (the
`OrderedDict` collapses duplicate names), so the schema length equals the
number of select expressions exactly when the derived names are pairwise
distinct; every emitted row always has one value per select expression. -/
theorem evalQuery_schema_rows (q : Query) (rows : List Row) (ctx : Ctx) (t : Table)
    (h : evalQuery q rows ctx = .ok t) :
    t.rowType.map Prod.fst =
      firstOccurrences (derivedNamesGo (childrenOf q.selectQ) 0) ∧
    ((derivedNamesGo (childrenOf q.selectQ) 0).Nodup →
      t.rowType.length = (childrenOf q.selectQ).length) ∧
    (∀ r ∈ t.rows, r.length = (childrenOf q.selectQ).length) := by
  unfold evalQuery at h
  cases hty : getType (runtimeTypeScope ctx) q.fromQ with
  | none => rw [hty] at h; exact Except.noConfusion h
  | some ty =>
    rw [hty] at h
    cases ty
    case' filesTableT => ?_
    all_goals try exact Except.noConfusion h
    by_cases hgc : (!isFakeGroup q.groupQ && groupCheckFails q) = true
    · rw [if_pos hgc] at h
      exact Except.noConfusion h
    · rw [if_neg hgc] at h
      cases hrt : rowTypeGo (selectTypeScope ctx) (childrenOf q.selectQ) 0 [] with
      | none => rw [hrt] at h; exact Except.noConfusion h
      | some rowTy =>
        rw [hrt] at h
        cases his : initStore (queryAggs q) with
        | none => rw [his] at h; exact Except.noConfusion h
        | some st0 =>
          rw [his] at h
          dsimp only at h
          cases hfs : filterStage q ctx rows st0 with
          | none => rw [hfs] at h; exact Except.noConfusion h
          | some p =>
            obtain ⟨fkeys, frows, st1⟩ := p
            rw [hfs] at h
            dsimp only at h
            cases hps : projectStage q ctx frows fkeys st1 with
            | none => rw [hps] at h; exact Except.noConfusion h
            | some p2 =>
              obtain ⟨keys, rvals, st2⟩ := p2
              rw [hps] at h
              dsimp only at h
              cases hov : evalNode q.offsetQ ctx st2 with
              | none => rw [hov] at h; exact Except.noConfusion h
              | some p3 =>
                obtain ⟨ov, st3⟩ := p3
                rw [hov] at h
                dsimp only at h
                cases hoi : pySliceIdx ov with
                | none => rw [hoi] at h; exact Except.noConfusion h
                | some oi =>
                  rw [hoi] at h
                  cases hlv : evalNode q.limitQ ctx st3 with
                  | none => rw [hlv] at h; exact Except.noConfusion h
                  | some p4 =>
                    obtain ⟨lv, st4⟩ := p4
                    rw [hlv] at h
                    dsimp only at h
                    have hnames := rowTypeGo_names (selectTypeScope ctx) _ 0 [] rowTy hrt
                    have hrowmem : ∀ r ∈ pyDropSlice
                        (pySortRows (orderDirs q) keys rvals) oi,
                        r.length = (childrenOf q.selectQ).length := by
                      intro r hr
                      exact projectStage_lengths q ctx frows fkeys st1 keys rvals st2 hps r
                        (pySortRows_mem _ _ _ _ (pyDropSlice_mem _ _ _ hr))
                    have hlen : (derivedNamesGo (childrenOf q.selectQ) 0).Nodup →
                        rowTy.length = (childrenOf q.selectQ).length := by
                      intro hnd
                      have h1 : rowTy.length = (rowTy.map Prod.fst).length := by simp
                      rw [h1, hnames]
                      rw [firstOccGo_of_nodup _ _ hnd (by intro n _; rfl)]
                      simp [derivedNamesGo_length]
                    by_cases hinf : pyEq lv .inf = true
                    · rw [hinf] at h
                      simp only [if_true] at h
                      cases h
                      exact ⟨hnames, hlen, hrowmem⟩
                    · simp only [Bool.not_eq_true] at hinf
                      rw [hinf] at h
                      simp only [Bool.false_eq_true, if_false] at h
                      cases hli : pySliceIdx lv with
                      | none => rw [hli] at h; exact Except.noConfusion h
                      | some li =>
                        rw [hli] at h
                        cases h
                        refine ⟨hnames, hlen, ?_⟩
                        intro r hr
                        exact hrowmem r (pyTakeSlice_mem _ _ _ hr)

/-- C2 counterexample: `SELECT name, name` evaluates successfully, but the
schema has one column while there are two select expressions (and each row
still carries two values). -/
theorem schema_length_cex :
    ∃ q t, create ⟨some (.selectN [.nameN "name", .nameN "name"]), none, none,
        none, none, none, none, none⟩ = .ok q ∧
      evalQuery q [[("name", .str "a")]] [("cwd", .str ".")] = .ok t ∧
      t.rowType.length = 1 ∧ (childrenOf q.selectQ).length = 2 ∧
      t.rows = [[.str "a", .str "a"]] := by
  exact ⟨_, _, rfl, rfl, rfl, rfl, rfl⟩

/-- Witness for the C2 amended theorem at a concrete successful query. -/
theorem evalQuery_schema_rows_witness :
    (Table.mk [("name", PyType.unicodeT)] [[Value.str "a"]]).rowType.map Prod.fst =
      firstOccurrences (derivedNamesGo (childrenOf (Node.selectN [Node.nameN "name"])) 0) ∧
    ([Value.str "a"] : List Value).length =
      (childrenOf (Node.selectN [Node.nameN "name"])).length := by
  have hmain := evalQuery_schema_rows
    ⟨.selectN [.nameN "name"], .functionN "files" [.nameN "cwd"],
     .valueN (.bool true), .fakeGroupN, .valueN (.bool true), .orderN [],
     .valueN .inf, .valueN (.int 0)⟩
    [[("name", .str "a")]] [("cwd", .str ".")]
    (Table.mk [("name", .unicodeT)] [[.str "a"]]) rfl
  exact ⟨hmain.1, hmain.2.2 [.str "a"] (by simp)⟩

/-! ## C10: BETWEEN degrades NULL to the total order -/

/-- C10: evaluating a BETWEEN node always yields a Python boolean, never NULL;
`Null.__lt__` is unconditionally `True` (even against `NULL` itself), so
`NULL BETWEEN NULL AND x` evaluates to `True` — a truthy value — for every
operand `x`, instead of propagating NULL. -/
theorem between_bool_null (v lo hi : Node) (ctx : Ctx) (st : AggStore) :
    (∀ res st2, evalNode (.betweenN v lo hi) ctx st = some (res, st2) →
      ∃ b, res = .bool b) ∧
    (∀ x, pyLt .null x = true) ∧
    (∀ x, evalNode (.betweenN (.valueN .null) (.valueN .null) (.valueN x)) ctx st
        = some (.bool true, st) ∧ truthy (.bool true) = true) := by
  refine ⟨?_, fun x => by cases x <;> rfl, fun x => by cases x <;> exact ⟨rfl, rfl⟩⟩
  intro res st2 h
  unfold evalNode at h
  cases h1 : evalNode lo ctx st with
  | none => rw [h1] at h; cases h
  | some p =>
    obtain ⟨lov, st1⟩ := p
    rw [h1] at h
    dsimp only at h
    cases h2 : evalNode v ctx st1 with
    | none => rw [h2] at h; cases h
    | some p2 =>
      obtain ⟨vv, stx⟩ := p2
      rw [h2] at h
      dsimp only at h
      by_cases hle : pyLe lov vv = true
      · rw [if_pos hle] at h
        cases h3 : evalNode hi ctx stx with
        | none => rw [h3] at h; cases h
        | some p3 =>
          obtain ⟨hiv, sty⟩ := p3
          rw [h3] at h
          cases h
          exact ⟨_, rfl⟩
      · rw [if_neg hle] at h
        cases h
        exact ⟨_, rfl⟩

/-- Witness for C10 at a concrete BETWEEN evaluation. -/
theorem between_bool_null_witness :
    (∃ b, Value.bool true = Value.bool b) ∧
    pyLt .null (.int 5) = true ∧
    evalNode (.betweenN (.valueN .null) (.valueN .null) (.valueN (.int 5)))
      [] [] = some (.bool true, []) :=
  ⟨(between_bool_null (.valueN .null) (.valueN .null) (.valueN (.int 5)) [] []).1
      (.bool true) [] (by rfl),
   (between_bool_null (.valueN .null) (.valueN .null) (.valueN (.int 5)) [] []).2.1
      (.int 5),
   ((between_bool_null (.valueN .null) (.valueN .null) (.valueN (.int 5)) [] []).2.2
      (.int 5)).1⟩

/-! ## Lexer (`parser.py`, `Lexer` / `_make_default_lexer`, lines 755-923)

The embedding models ASCII query strings: `\\w` is `[A-Za-z0-9_]`, `\\s` is
ASCII whitespace, and `[^\\W\\d]` (first char of names, number suffixes) is
`[A-Za-z_]`. -/

/-- One constructor per concrete token class of `parser.py`. -/
inductive TokKind where
  | andKw | asKw | ascKw | betweenKw | byKw | caseKw | containsKw | deleteKw
  | descKw | dropKw | countKw | elseKw | endKw | existsKw | fromKw | groupKw
  | havingKw | icontainsKw | ilikeKw | inKw | isKw | isnullKw | joinKw | leftKw
  | likeKw | likeRegexKw | limitKw | notKw | notnullKw | nullKw | offsetKw
  | orKw | orderKw | outerKw | rilikeKw | rlikeKw | selectKw | thenKw
  | updateKw | whereKw
  | nameTok | concatOp | divOp | eqOp | gtOp | gteOp | ltOp | lteOp | minusOp
  | moduloOp | mulOp | neOp | plusOp | powerOp
  | stringTok | numberTok | whitespaceTok
  | closingParen | commaTok | openingParen | periodTok | endQueryTok
deriving Repr, DecidableEq

/-- The named groups of a number-literal match (`_add_number_literals`). -/
structure NumGroups where
  intPart : String
  floatPart : String
  expPart : Option String
  sfxPart : Option String
deriving Repr, DecidableEq

/-- Payload carried by a token beyond its class and span. -/
inductive TokData where
  | plainD
  | numD (g : NumGroups)
  | strD (s : String)
deriving Repr, DecidableEq

/-- A lexed token: class, matched text, source span (`Token.text/start/end`). -/
structure Tok where
  kind : TokKind
  text : String
  startPos : Nat
  stopPos : Nat
  data : TokData
deriving Repr, DecidableEq

/-- `CantTokenizeError(string, pos)` / `NotImplementedTokenError(cls, match)`:
`NotImplementedToken.__init__` raises as soon as the lexer instantiates one of
the not-implemented token classes (`parser.py:338-341`). -/
inductive LexErr where
  | cantTokenize (pos : Nat)
  | notImplementedTok (kind : TokKind) (startPos stopPos : Nat)
deriving Repr, DecidableEq

def isAsciiDigit (c : Char) : Bool := '0' ≤ c && c ≤ '9'

def isAsciiLetter (c : Char) : Bool :=
  ('a' ≤ c && c ≤ 'z') || ('A' ≤ c && c ≤ 'Z')

/-- ASCII `\\w`. -/
def isWordChar (c : Char) : Bool := isAsciiLetter c || isAsciiDigit c || c == '_'

/-- ASCII `\\s`. -/
def isSpaceChar (c : Char) : Bool :=
  c == ' ' || c == '\t' || c == '\n' || c == '\x0d' || c == '\x0c' || c == '\x0b'

/-- The single-quote character (string literals are quoted with it). -/
def quoteChar : Char := Char.ofNat 39

/-- Keyword classes in `_add_keywords` registration order (`parser.py:820-864`). -/
def KEYWORDS : List (String × TokKind) :=
  [("and", .andKw), ("as", .asKw), ("asc", .ascKw), ("between", .betweenKw),
   ("by", .byKw), ("case", .caseKw), ("contains", .containsKw),
   ("delete", .deleteKw), ("desc", .descKw), ("drop", .dropKw),
   ("count", .countKw), ("else", .elseKw), ("end", .endKw),
   ("exists", .existsKw), ("from", .fromKw), ("group", .groupKw),
   ("having", .havingKw), ("icontains", .icontainsKw), ("ilike", .ilikeKw),
   ("in", .inKw), ("is", .isKw), ("isnull", .isnullKw), ("join", .joinKw),
   ("left", .leftKw), ("like", .likeKw), ("like_regex", .likeRegexKw),
   ("limit", .limitKw), ("not", .notKw), ("notnull", .notnullKw),
   ("null", .nullKw), ("offset", .offsetKw), ("or", .orKw),
   ("order", .orderKw), ("outer", .outerKw), ("rilike", .rilikeKw),
   ("rlike", .rlikeKw), ("select", .selectKw), ("then", .thenKw),
   ("update", .updateKw), ("where", .whereKw)]

/-- Operator patterns in `_add_operators` registration order. -/
def OPERATORS : List (String × TokKind) :=
  [("||", .concatOp), ("/", .divOp), ("=", .eqOp), (">", .gtOp),
   (">=", .gteOp), ("<", .ltOp), ("<=", .lteOp), ("-", .minusOp),
   ("%", .moduloOp), ("*", .mulOp), ("<>", .neOp), ("!=", .neOp),
   ("+", .plusOp), ("^", .powerOp)]

/-- Token classes deriving from `NotImplementedToken`. -/
def NOT_IMPLEMENTED_KINDS : List TokKind :=
  [.asKw, .caseKw, .containsKw, .deleteKw, .dropKw, .elseKw, .endKw,
   .existsKw, .isKw, .isnullKw, .joinKw, .leftKw, .likeKw, .likeRegexKw,
   .icontainsKw, .ilikeKw, .notKw, .notnullKw, .outerKw, .rilikeKw, .rlikeKw,
   .thenKw, .updateKw, .periodTok]

/-- Length of the run of characters satisfying `p` at the front. -/
def runLen (p : Char → Bool) : List Char → Nat
  | [] => 0
  | c :: cs => if p c then runLen p cs + 1 else 0

/-- `\\b` at a position whose preceding character is a word character: the
next character must not be one (end of string counts). -/
def atWordEnd : List Char → Bool
  | [] => true
  | c :: _ => !isWordChar c

/-- General `\\b` given the preceding character. -/
def isBoundary (prev : Char) : List Char → Bool
  | [] => isWordChar prev
  | c :: _ => isWordChar prev != isWordChar c

/-- Case-insensitive literal match (`re.I` keyword patterns); returns the
rest of the input. -/
def matchCI : List Char → List Char → Option (List Char)
  | [], rest => some rest
  | k :: ks, c :: cs => if lowerChar c == lowerChar k then matchCI ks cs else none
  | _ :: _, [] => none

/-- Case-sensitive literal match; returns the rest of the input. -/
def matchExact : List Char → List Char → Option (List Char)
  | [], rest => some rest
  | k :: ks, c :: cs => if c == k then matchExact ks cs else none
  | _ :: _, [] => none

/-- `_keyword(s)`: `re.escape(s)\\b`, case-insensitive. -/
def keywordMatch (kw : String) (cs : List Char) : Option Nat :=
  match matchCI kw.data cs with
  | some rest => if atWordEnd rest then some kw.data.length else none
  | none => none

/-- `_add_names`: `[^\\W\\d]\\w*`. -/
def nameMatch : List Char → Option Nat
  | [] => none
  | c :: cs =>
    if isAsciiLetter c || c == '_' then some (runLen isWordChar cs + 1) else none

/-- The operator characters collected into `_OPERATOR_CHARS`. -/
def isOpChar (c : Char) : Bool :=
  c == '|' || c == '/' || c == '=' || c == '>' || c == '<' || c == '-' ||
  c == '%' || c == '*' || c == '!' || c == '+' || c == '^'

/-- `_operator(s)`: the literal followed by a negative lookahead for any
operator character. -/
def opMatch (op : String) (cs : List Char) : Option Nat :=
  match matchExact op.data cs with
  | some [] => some op.data.length
  | some (c :: _) => if isOpChar c then none else some op.data.length
  | none => none

/-- Content of a string literal after the opening quote, with the greedy
backtracking of `'(?P<string>(?:[^']|'')*)'`: a quote pair is consumed as
content when the remainder still closes, otherwise its first quote closes
the literal. Returns the content length. -/
def strContentLen : List Char → Option Nat
  | [] => none
  | c :: cs =>
    if c == quoteChar then
      match cs with
      | c2 :: cs2 =>
        if c2 == quoteChar then
          match strContentLen cs2 with
          | some n => some (n + 2)
          | none => some 0
        else some 0
      | [] => some 0
    else
      match strContentLen cs with
      | some n => some (n + 1)
      | none => none

/-- `_add_string_literals` rule: whole-token length and the `string` group. -/
def strMatch : List Char → Option (Nat × String)
  | [] => none
  | c :: cs =>
    if c == quoteChar then
      match strContentLen cs with
      | some n => some (n + 2, String.mk (cs.take n))
      | none => none
    else none

def digitRun (cs : List Char) : Nat := runLen isAsciiDigit cs

def letterRun (cs : List Char) : Nat :=
  runLen (fun c => isAsciiLetter c || c == '_') cs

/-- `e(?P<exp>[+-]?\\d+)` after the `e`: consumed length and the `exp` group. -/
def expDigits : List Char → Option (Nat × String)
  | [] => none
  | c :: cs =>
    if c == '+' || c == '-' then
      let n := digitRun cs
      if n == 0 then none else some (n + 1, String.mk (c :: cs.take n))
    else
      let n := digitRun (c :: cs)
      if n == 0 then none else some (n, String.mk ((c :: cs).take n))

/-- The `(?:e(?P<exp>…))?(?P<suffix>[^\\W\\d]+)?\\b` tail shared by the number
patterns, with the regex's preference order (exponent first, then suffix,
then the bare boundary). Shrinking a digit or letter run never helps the
boundary (the following character would still be a word character), so runs
are maximal. `prev` is the character preceding the tail. -/
def numTail (prev : Char) (cs : List Char) :
    Option (Nat × Option String × Option String) :=
  let withExp : Option (Nat × Option String × Option String) :=
    match cs with
    | c :: cs2 =>
      if c == 'e' || c == 'E' then
        match expDigits cs2 with
        | some (n, expStr) =>
          let rest := cs2.drop n
          let m := letterRun rest
          if m != 0 then
            if atWordEnd (rest.drop m) then
              some (1 + n + m, some expStr, some (String.mk (rest.take m)))
            else none
          else if atWordEnd rest then some (1 + n, some expStr, none)
          else none
        | none => none
      else none
    | [] => none
  match withExp with
  | some r => some r
  | none =>
    let m := letterRun cs
    if m != 0 then
      if atWordEnd (cs.drop m) then
        some (m, none, some (String.mk (cs.take m)))
      else none
    else if isBoundary prev cs then some (0, none, none)
    else none

/-- First number pattern: `(?P<int>\\d*)\\.(?P<float>\\d+)` + tail. -/
def numMatch1 (cs : List Char) : Option (Nat × NumGroups) :=
  let n := digitRun cs
  match cs.drop n with
  | c :: rest2 =>
    if c == '.' then
      let f := digitRun rest2
      if f == 0 then none
      else
        match numTail '0' (rest2.drop f) with
        | some (k, e, sfx) =>
          some (n + 1 + f + k,
            ⟨String.mk (cs.take n), String.mk (rest2.take f), e, sfx⟩)
        | none => none
    else none
  | [] => none

/-- Second number pattern: `(?P<int>\\d+)\\.(?P<float>)` + optional tail; when
every tail alternative fails the optional group is skipped and the match ends
at the period (its preceding character). -/
def numMatch2 (cs : List Char) : Option (Nat × NumGroups) :=
  let n := digitRun cs
  if n == 0 then none
  else
    match cs.drop n with
    | c :: rest2 =>
      if c == '.' then
        match numTail '.' rest2 with
        | some (k, e, sfx) =>
          some (n + 1 + k, ⟨String.mk (cs.take n), "", e, sfx⟩)
        | none => some (n + 1, ⟨String.mk (cs.take n), "", none, none⟩)
      else none
    | [] => none

/-- Third number pattern: `(?P<int>\\d+)(?P<float>)` + tail. -/
def numMatch3 (cs : List Char) : Option (Nat × NumGroups) :=
  let n := digitRun cs
  if n == 0 then none
  else
    match numTail '0' (cs.drop n) with
    | some (k, e, sfx) => some (n + k, ⟨String.mk (cs.take n), "", e, sfx⟩)
    | none => none

/-- Try the keyword rules in order. -/
def keywordScan : List (String × TokKind) → List Char → Option (Nat × TokKind)
  | [], _ => none
  | (kw, k) :: rest, cs =>
    match keywordMatch kw cs with
    | some n => some (n, k)
    | none => keywordScan rest cs

/-- Try the operator rules in order. -/
def opScan : List (String × TokKind) → List Char → Option (Nat × TokKind)
  | [], _ => none
  | (op, k) :: rest, cs =>
    match opMatch op cs with
    | some n => some (n, k)
    | none => opScan rest cs

/-- One step of `Lexer.tokenize_with_whitespaces`: the first rule that
matches, in registration order (keywords, names, operators, strings, the
three number patterns, whitespace, specials). -/
def stepMatch (cs : List Char) : Option (Nat × TokKind × TokData) :=
  match keywordScan KEYWORDS cs with
  | some (n, k) => some (n, k, .plainD)
  | none =>
  match nameMatch cs with
  | some n => some (n, .nameTok, .plainD)
  | none =>
  match opScan OPERATORS cs with
  | some (n, k) => some (n, k, .plainD)
  | none =>
  match strMatch cs with
  | some (n, content) => some (n, .stringTok, .strD content)
  | none =>
  match numMatch1 cs with
  | some (n, g) => some (n, .numberTok, .numD g)
  | none =>
  match numMatch2 cs with
  | some (n, g) => some (n, .numberTok, .numD g)
  | none =>
  match numMatch3 cs with
  | some (n, g) => some (n, .numberTok, .numD g)
  | none =>
  let w := runLen isSpaceChar cs
  if w != 0 then some (w, .whitespaceTok, .plainD)
  else
  match cs with
  | ')' :: _ => some (1, .closingParen, .plainD)
  | ',' :: _ => some (1, .commaTok, .plainD)
  | '(' :: _ => some (1, .openingParen, .plainD)
  | '.' :: _ => some (1, .periodTok, .plainD)
  | _ => none

/-- The tokenization loop; every match consumes at least one character, so
the fuel (input length + 1) is never exhausted. Instantiating a
not-implemented token class raises immediately. -/
def tokenizeGo : Nat → Nat → List Char → Except LexErr (List Tok)
  | _, _, [] => .ok []
  | 0, pos, _ :: _ => .error (.cantTokenize pos)
  | fuel + 1, pos, c :: cs =>
    match stepMatch (c :: cs) with
    | none => .error (.cantTokenize pos)
    | some (n, k, d) =>
      if NOT_IMPLEMENTED_KINDS.contains k then
        .error (.notImplementedTok k pos (pos + n))
      else
        match tokenizeGo fuel (pos + n) ((c :: cs).drop n) with
        | .ok toks =>
          .ok (⟨k, String.mk ((c :: cs).take n), pos, pos + n, d⟩ :: toks)
        | .error e => .error e

/-- `Lexer.tokenize_with_whitespaces`: tokens plus the EndQuery sentinel. -/
def tokenizeWithWs (s : String) : Except LexErr (List Tok) :=
  match tokenizeGo (s.data.length + 1) 0 s.data with
  | .ok toks =>
    .ok (toks ++ [⟨.endQueryTok, "", s.data.length, s.data.length, .plainD⟩])
  | .error e => .error e

/-- `Lexer.tokenize`: strips whitespace tokens. -/
def tokenize (s : String) : Except LexErr (List Tok) :=
  match tokenizeWithWs s with
  | .ok toks => .ok (toks.filter fun t => !(t.kind == .whitespaceTok))
  | .error e => .error e

/-! ## Pratt parser (`parser.py`, `Parser` / token `prefix`/`suffix`/`clause`) -/

/-- The parser-level errors of `parser.py` (`ParserError` subclasses, plus the
`assert` in `OpeningParenToken.suffix`). -/
inductive ParseErr where
  | unexpectedToken (k : TokKind)
  | unexpectedEnd
  | valueExpected (k : TokKind)
  | operatorExpected (k : TokKind)
  | unknownSuffix (s : String)
  | notImplementedMethod (k : TokKind)
  | assertionFailed
deriving Repr, DecidableEq

/-- `RIGHT_BINDING_POWERS` (`_get_right_binding_powers`, levels × 100);
`none` models a `KeyError`, which `Token.right_bp` turns into
`OperatorExpectedError`. -/
def rightBp : TokKind → Option Nat
  | .endKw | .commaTok | .closingParen | .fromKw | .whereKw | .groupKw
  | .havingKw | .orderKw | .ascKw | .descKw | .limitKw | .offsetKw
  | .endQueryTok => some 0
  | .orKw => some 100
  | .andKw => some 200
  | .eqOp => some 300
  | .ltOp | .gtOp => some 400
  | .likeKw | .ilikeKw | .likeRegexKw | .rlikeKw | .rilikeKw | .containsKw
  | .icontainsKw => some 500
  | .betweenKw => some 600
  | .inKw => some 700
  | .concatOp | .lteOp | .gteOp | .neOp => some 800
  | .plusOp | .minusOp => some 900
  | .mulOp | .divOp | .moduloOp => some 1000
  | .powerOp => some 1100
  | .openingParen => some 1200
  | _ => none

/-- `operator_name` of the plain `OperatorToken` subclasses. -/
def opName : TokKind → Option String
  | .eqOp => some "="
  | .neOp => some "<>"
  | .ltOp => some "<"
  | .lteOp => some "<="
  | .gtOp => some ">"
  | .gteOp => some ">="
  | .concatOp => some "||"
  | .minusOp => some "-"
  | .plusOp => some "+"
  | .mulOp => some "*"
  | .divOp => some "/"
  | .moduloOp => some "%"
  | .powerOp => some "^"
  | _ => none

/-- `LITERAL_SUFFIXES = _merge_dicts(SIZE_SUFFIXES, TIME_SUFFIXES)`. -/
def LITERAL_SUFFIXES : List (String × Int) :=
  [("k", 1024), ("kb", 1024), ("m", 1048576), ("mb", 1048576),
   ("g", 1073741824), ("gb", 1073741824),
   ("minute", 60), ("minutes", 60), ("hour", 3600), ("hours", 3600),
   ("day", 86400), ("days", 86400), ("week", 604800), ("weeks", 604800),
   ("month", 2592000), ("months", 2592000),
   ("year", 31536000), ("years", 31536000)]

def suffixFactor (s : String) : Option Int :=
  (LITERAL_SUFFIXES.find? fun p => p.1 == lowerStr s).map Prod.snd

def parseNatDigits (cs : List Char) : Nat :=
  cs.foldl (fun acc c => acc * 10 + (c.toNat - 48)) 0

/-- Value of the `exp` group `[+-]?\\d+`. -/
def expInt : List Char → Int
  | [] => 0
  | c :: cs =>
    if c == '-' then -(parseNatDigits cs : Int)
    else if c == '+' then (parseNatDigits cs : Int)
    else (parseNatDigits (c :: cs) : Int)

/-- `NumberToken.value`: int part, plus `0.<float>`, times `10**exp`, times
the (case-insensitively looked up) literal suffix; the result stays a Python
`int` only when neither float part nor exponent is present. Floats are
modelled exactly as rationals. -/
def numValue (g : NumGroups) : Except ParseErr Value :=
  let intVal : Nat := parseNatDigits g.intPart.data
  let base : ℚ :=
    (if g.intPart.data.length != 0 then (intVal : ℚ) else 0) +
    (if g.floatPart.data.length != 0 then
      (parseNatDigits g.floatPart.data : ℚ) / (10 : ℚ) ^ g.floatPart.data.length
     else 0)
  let isFloat : Bool := g.floatPart.data.length != 0 || g.expPart.isSome
  let withExp : ℚ :=
    match g.expPart with
    | some e => base * (10 : ℚ) ^ (expInt e.data)
    | none => base
  match g.sfxPart with
  | some sfx =>
    match suffixFactor sfx with
    | some f =>
      .ok (if isFloat then .rat (withExp * (f : ℚ)) else .int ((intVal : Int) * f))
    | none => .error (.unknownSuffix sfx)
  | none => .ok (if isFloat then .rat withExp else .int intVal)

/-- `Parser.advance` (`_check_bounds` raises `UnexpectedEndError` past the
last token). -/
def advTok : List Tok → Except ParseErr (List Tok)
  | _ :: t :: rest => .ok (t :: rest)
  | _ => .error .unexpectedEnd

/-- `Parser.skip`: expect the token class, then advance. -/
def skipKind (k : TokKind) : List Tok → Except ParseErr (List Tok)
  | [] => .error .unexpectedEnd
  | t :: rest =>
    if t.kind == k then
      match rest with
      | t2 :: r2 => .ok (t2 :: r2)
      | [] => .error .unexpectedEnd
    else .error (.unexpectedToken t.kind)

/-- `right_bp > left_bp`, where `none` is the infinite left binding power of
unary plus/minus (`LEFT_BINDING_POWERS`). -/
def bpGtB (bp : Nat) : Option Nat → Bool
  | none => false
  | some l => decide (l < bp)

mutual

/-- `Parser.expr`: prefix handler for the current token, then the
suffix loop. `leftBp = none` encodes `float('inf')`. -/
def parseExpr : Nat → Option Nat → List Tok → Except ParseErr (Node × List Tok)
  | 0, _, _ => .error .unexpectedEnd
  | fuel + 1, leftBp, toks =>
    match toks with
    | [] => .error .unexpectedEnd
    | t :: rest =>
      match advTok (t :: rest) with
      | .error e => .error e
      | .ok toks1 =>
        match prefixRule fuel t toks1 with
        | .error e => .error e
        | .ok (left, toks2) => exprLoop fuel leftBp left toks2

/-- `while self.token.right_bp > left_bp: … left = token.suffix(left, self)`. -/
def exprLoop : Nat → Option Nat → Node → List Tok → Except ParseErr (Node × List Tok)
  | 0, _, _, _ => .error .unexpectedEnd
  | fuel + 1, leftBp, left, toks =>
    match toks with
    | [] => .error .unexpectedEnd
    | t :: rest =>
      match rightBp t.kind with
      | none => .error (.operatorExpected t.kind)
      | some bp =>
        if bpGtB bp leftBp then
          match advTok (t :: rest) with
          | .error e => .error e
          | .ok toks1 =>
            match suffixRule fuel t left toks1 with
            | .error e => .error e
            | .ok (left2, toks2) => exprLoop fuel leftBp left2 toks2
        else .ok (left, t :: rest)

/-- `Token.prefix` dispatch; classes without a real `prefix` raise
`ValueExpectedError`. -/
def prefixRule : Nat → Tok → List Tok → Except ParseErr (Node × List Tok)
  | 0, _, _ => .error .unexpectedEnd
  | fuel + 1, t, toks =>
    match t.kind with
    | .numberTok =>
      match t.data with
      | .numD g =>
        match numValue g with
        | .ok v => .ok (.valueN v, toks)
        | .error e => .error e
      | _ => .error .assertionFailed
    | .stringTok =>
      match t.data with
      | .strD s => .ok (.valueN (.str s), toks)
      | _ => .error .assertionFailed
    | .nameTok => .ok (.nameN t.text, toks)
    | .nullKw => .ok (.valueN .null, toks)
    | .minusOp =>
      match parseExpr fuel none toks with
      | .ok (e, toks1) => .ok (.functionN "negate" [e], toks1)
      | .error e => .error e
    | .plusOp => parseExpr fuel none toks
    | .openingParen =>
      match toks with
      | t2 :: _ =>
        if t2.kind == .closingParen then .error (.unexpectedToken t2.kind)
        else
          match parseExpr fuel (some 0) toks with
          | .ok (e, toks1) =>
            match skipKind .closingParen toks1 with
            | .ok toks2 => .ok (e, toks2)
            | .error e2 => .error e2
          | .error e2 => .error e2
      | [] => .error .unexpectedEnd
    | .countKw =>
      match skipKind .openingParen toks with
      | .ok toks1 =>
        match toks1 with
        | t2 :: _ =>
          if t2.kind == .mulOp then
            match advTok toks1 with
            | .ok toks2 =>
              match skipKind .closingParen toks2 with
              | .ok toks3 => .ok (.functionN "count" [.valueN (.int 1)], toks3)
              | .error e2 => .error e2
            | .error e2 => .error e2
          else
            match parseExpr fuel (some 0) toks1 with
            | .ok (arg, toks2) =>
              match skipKind .closingParen toks2 with
              | .ok toks3 => .ok (.functionN "count" [arg], toks3)
              | .error e2 => .error e2
            | .error e2 => .error e2
        | [] => .error .unexpectedEnd
      | .error e2 => .error e2
    | k => .error (.valueExpected k)

/-- `Token.suffix` dispatch. The binding powers passed to `parser.expr` are
each class's `self.right_bp`. -/
def suffixRule : Nat → Tok → Node → List Tok → Except ParseErr (Node × List Tok)
  | 0, _, _, _ => .error .unexpectedEnd
  | fuel + 1, t, left, toks =>
    match t.kind with
    | .andKw =>
      match parseExpr fuel (some 200) toks with
      | .ok (r, toks1) => .ok (.andN left r, toks1)
      | .error e => .error e
    | .orKw =>
      match parseExpr fuel (some 100) toks with
      | .ok (r, toks1) => .ok (.orN left r, toks1)
      | .error e => .error e
    | .betweenKw =>
      match parseExpr fuel (some 600) toks with
      | .ok (first, toks1) =>
        match skipKind .andKw toks1 with
        | .ok toks2 =>
          match parseExpr fuel (some 0) toks2 with
          | .ok (last, toks3) => .ok (.betweenN left first last, toks3)
          | .error e => .error e
        | .error e => .error e
      | .error e => .error e
    | .inKw =>
      match skipKind .openingParen toks with
      | .ok toks1 =>
        match parseDelim fuel toks1 with
        | .ok (nodes, toks2) =>
          match skipKind .closingParen toks2 with
          | .ok toks3 => .ok (.functionN "in" [left, .arrayN nodes], toks3)
          | .error e => .error e
        | .error e => .error e
      | .error e => .error e
    | .openingParen =>
      match left with
      | .nameN nm =>
        match toks with
        | t2 :: _ =>
          if t2.kind == .closingParen then
            match skipKind .closingParen toks with
            | .ok toks1 => .ok (.functionN nm [], toks1)
            | .error e => .error e
          else
            match parseDelim fuel toks with
            | .ok (args, toks1) =>
              match skipKind .closingParen toks1 with
              | .ok toks2 => .ok (.functionN nm args, toks2)
              | .error e => .error e
            | .error e => .error e
        | [] => .error .unexpectedEnd
      | _ => .error .assertionFailed
    | k =>
      match opName k, rightBp k with
      | some nm, some bp =>
        match parseExpr fuel (some bp) toks with
        | .ok (r, toks1) => .ok (.functionN nm [left, r], toks1)
        | .error e => .error e
      | _, _ => .error (.notImplementedMethod k)

/-- `Parser.parse_delimited_exprs` with the default `parse_fn`. -/
def parseDelim : Nat → List Tok → Except ParseErr (List Node × List Tok)
  | 0, _ => .error .unexpectedEnd
  | fuel + 1, toks =>
    match parseExpr fuel (some 0) toks with
    | .ok (n, toks1) => parseDelimMore fuel [n] toks1
    | .error e => .error e

def parseDelimMore : Nat → List Node → List Tok → Except ParseErr (List Node × List Tok)
  | 0, _, _ => .error .unexpectedEnd
  | fuel + 1, acc, toks =>
    match toks with
    | t :: _ =>
      if t.kind == .commaTok then
        match advTok toks with
        | .ok toks1 =>
          match parseExpr fuel (some 0) toks1 with
          | .ok (n, toks2) => parseDelimMore fuel (acc ++ [n]) toks2
          | .error e => .error e
        | .error e => .error e
      else .ok (acc, toks)
    | [] => .error .unexpectedEnd

/-- `_parse_one_order_by_clause`. -/
def parseOrderPart : Nat → List Tok → Except ParseErr (Node × List Tok)
  | 0, _ => .error .unexpectedEnd
  | fuel + 1, toks =>
    match parseExpr fuel (some 0) toks with
    | .ok (n, toks1) =>
      match toks1 with
      | t :: _ =>
        if t.kind == .ascKw then
          match advTok toks1 with
          | .ok toks2 => .ok (.orderByPartN 1 n, toks2)
          | .error e => .error e
        else if t.kind == .descKw then
          match advTok toks1 with
          | .ok toks2 => .ok (.orderByPartN (-1) n, toks2)
          | .error e => .error e
        else .ok (.orderByPartN 1 n, toks1)
      | [] => .error .unexpectedEnd
    | .error e => .error e

/-- `parse_delimited_exprs` with `_parse_one_order_by_clause`. -/
def parseOrderList : Nat → List Tok → Except ParseErr (List Node × List Tok)
  | 0, _ => .error .unexpectedEnd
  | fuel + 1, toks =>
    match parseOrderPart fuel toks with
    | .ok (n, toks1) => parseOrderMore fuel [n] toks1
    | .error e => .error e

def parseOrderMore : Nat → List Node → List Tok → Except ParseErr (List Node × List Tok)
  | 0, _, _ => .error .unexpectedEnd
  | fuel + 1, acc, toks =>
    match toks with
    | t :: _ =>
      if t.kind == .commaTok then
        match advTok toks with
        | .ok toks1 =>
          match parseOrderPart fuel toks1 with
          | .ok (n, toks2) => parseOrderMore fuel (acc ++ [n]) toks2
          | .error e => .error e
        | .error e => .error e
      else .ok (acc, toks)
    | [] => .error .unexpectedEnd

end

/-- `_get_clause` for the clauses whose `clause()` is a bare `parser.expr()`
(FROM, WHERE, HAVING, LIMIT, OFFSET). -/
def getClauseExpr (k : TokKind) (fuel : Nat) (toks : List Tok) :
    Except ParseErr (Option Node × List Tok) :=
  match toks with
  | t :: _ =>
    if t.kind == k then
      match advTok toks with
      | .ok toks1 =>
        match parseExpr fuel (some 0) toks1 with
        | .ok (n, toks2) => .ok (some n, toks2)
        | .error e => .error e
      | .error e => .error e
    else .ok (none, toks)
  | [] => .error .unexpectedEnd

/-- `SelectToken.clause`. -/
def getClauseSelect (fuel : Nat) (toks : List Tok) :
    Except ParseErr (Option Node × List Tok) :=
  match toks with
  | t :: _ =>
    if t.kind == .selectKw then
      match advTok toks with
      | .ok toks1 =>
        match toks1 with
        | t2 :: _ =>
          if t2.kind == .mulOp then
            match advTok toks1 with
            | .ok toks2 => .ok (some .selectStarN, toks2)
            | .error e => .error e
          else
            match parseDelim fuel toks1 with
            | .ok (nodes, toks2) => .ok (some (.selectN nodes), toks2)
            | .error e => .error e
        | [] => .error .unexpectedEnd
      | .error e => .error e
    else .ok (none, toks)
  | [] => .error .unexpectedEnd

/-- `GroupToken.clause`: `skip(ByToken)` then a comma list. -/
def getClauseGroup (fuel : Nat) (toks : List Tok) :
    Except ParseErr (Option Node × List Tok) :=
  match toks with
  | t :: _ =>
    if t.kind == .groupKw then
      match advTok toks with
      | .ok toks1 =>
        match skipKind .byKw toks1 with
        | .ok toks2 =>
          match parseDelim fuel toks2 with
          | .ok (nodes, toks3) => .ok (some (.groupN nodes), toks3)
          | .error e => .error e
        | .error e => .error e
      | .error e => .error e
    else .ok (none, toks)
  | [] => .error .unexpectedEnd

/-- `OrderToken.clause`: `skip(ByToken)` then order-by parts. -/
def getClauseOrder (fuel : Nat) (toks : List Tok) :
    Except ParseErr (Option Node × List Tok) :=
  match toks with
  | t :: _ =>
    if t.kind == .orderKw then
      match advTok toks with
      | .ok toks1 =>
        match skipKind .byKw toks1 with
        | .ok toks2 =>
          match parseOrderList fuel toks2 with
          | .ok (nodes, toks3) => .ok (some (.orderN nodes), toks3)
          | .error e => .error e
        | .error e => .error e
      | .error e => .error e
    else .ok (none, toks)
  | [] => .error .unexpectedEnd

/-- `Parser.parse` up to (but not including) the `QueryNode.create` call. -/
def parseRaw (fuel : Nat) (toks0 : List Tok) : Except ParseErr RawQuery :=
  match getClauseSelect fuel toks0 with
  | .error e => .error e
  | .ok (selOpt, toks1) =>
  match getClauseExpr .fromKw fuel toks1 with
  | .error e => .error e
  | .ok (fromOpt, toks2) =>
  match getClauseExpr .whereKw fuel toks2 with
  | .error e => .error e
  | .ok (whereOpt, toks3) =>
  match getClauseGroup fuel toks3 with
  | .error e => .error e
  | .ok (groupOpt, toks4) =>
  match getClauseExpr .havingKw fuel toks4 with
  | .error e => .error e
  | .ok (havingOpt, toks5) =>
  match getClauseOrder fuel toks5 with
  | .error e => .error e
  | .ok (orderOpt, toks6) =>
  match getClauseExpr .limitKw fuel toks6 with
  | .error e => .error e
  | .ok (limitOpt, toks7) =>
  match getClauseExpr .offsetKw fuel toks7 with
  | .error e => .error e
  | .ok (offsetOpt, toks8) =>
  match toks8 with
  | t :: _ =>
    if t.kind == .endQueryTok then
      .ok ⟨selOpt, fromOpt, whereOpt, groupOpt, havingOpt, orderOpt, limitOpt, offsetOpt⟩
    else .error (.unexpectedToken t.kind)
  | [] => .error .unexpectedEnd

/-- A full run of `parse(tokenize(s))`, including `QueryNode.create`. -/
inductive QErr where
  | lexE (e : LexErr)
  | parseE (e : ParseErr)
  | createE (e : CreateErr)
deriving Repr, DecidableEq

def parseLsql (s : String) : Except QErr Query :=
  match tokenize s with
  | .error e => .error (.lexE e)
  | .ok toks =>
    match parseRaw (4 * toks.length + 16) toks with
    | .error e => .error (.parseE e)
    | .ok raw =>
      match create raw with
      | .error e => .error (.createE e)
      | .ok q => .ok q

/-! ## C7: tokenization outcomes -/

/-- C7: tokenization has a third outcome besides `CantTokenizeError` and a
token stream — `NotImplementedToken.__init__` raises
`NotImplementedTokenError` as soon as the lexer matches one of the 24
not-implemented token classes, so `as` (and every query containing `AS`, or a
pattern keyword such as `like`) fails to tokenize at all, and the error is
not a `CantTokenizeError`. -/
theorem tokenize_not_implemented_raises :
    tokenize "as" = .error (.notImplementedTok .asKw 0 2) ∧
    (∀ pos, ((LexErr.notImplementedTok .asKw 0 2) ==
      LexErr.cantTokenize pos) = false) ∧
    tokenize "SELECT length(LINES) AS num_lines" =
      .error (.notImplementedTok .asKw 21 23) ∧
    tokenize "select name like 'x'" = .error (.notImplementedTok .likeKw 12 16) :=
  ⟨rfl, fun _ => rfl, rfl, rfl⟩

/-! ## C9: contents of the built-in namespace -/

/-- C9 counterexample: none of `lower`, `upper`, `age`, `btrim`, `concat`
is in `FUNCTIONS`. -/
theorem functions_missing_cex :
    FUNCTIONS_lookup "lower" = none ∧ FUNCTIONS_lookup "upper" = none ∧
    FUNCTIONS_lookup "age" = none ∧ FUNCTIONS_lookup "btrim" = none ∧
    FUNCTIONS_lookup "concat" = none :=
  ⟨rfl, rfl, rfl, rfl, rfl⟩

/-- C9 (amended): the case-insensitive built-in namespace contains `length`,
`negate` and the `||` operator, but not `lower`, `upper`, `age`, `btrim` or
`concat`; and the pattern operators `like`, `rlike`, `ilike`, `rilike`,
`contains`, `icontains` are unusable — their token classes raise
`NotImplementedTokenError` during tokenization. -/
theorem functions_table_contents :
    (FUNCTIONS_lookup "length").isSome = true ∧
    (FUNCTIONS_lookup "LENGTH").isSome = true ∧
    (FUNCTIONS_lookup "negate").isSome = true ∧
    (FUNCTIONS_lookup "NeGaTe").isSome = true ∧
    (FUNCTIONS_lookup "||").isSome = true ∧
    FUNCTIONS_lookup "lower" = none ∧
    FUNCTIONS_lookup "upper" = none ∧
    FUNCTIONS_lookup "age" = none ∧
    FUNCTIONS_lookup "btrim" = none ∧
    FUNCTIONS_lookup "concat" = none ∧
    tokenize "a like 'x'" = .error (.notImplementedTok .likeKw 2 6) ∧
    tokenize "a rlike 'x'" = .error (.notImplementedTok .rlikeKw 2 7) ∧
    tokenize "a ilike 'x'" = .error (.notImplementedTok .ilikeKw 2 7) ∧
    tokenize "a rilike 'x'" = .error (.notImplementedTok .rilikeKw 2 8) ∧
    tokenize "a contains 'x'" = .error (.notImplementedTok .containsKw 2 10) ∧
    tokenize "a icontains 'x'" = .error (.notImplementedTok .icontainsKw 2 11) :=
  ⟨rfl, rfl, rfl, rfl, rfl, rfl, rfl, rfl, rfl, rfl, rfl, rfl, rfl, rfl, rfl, rfl⟩

/-! ## C4: case sensitivity -/

theorem ofNat_toNat_lt (n : Nat) (h : n < 55296) : (Char.ofNat n).toNat = n := by
  unfold Char.ofNat
  rw [dif_pos (Or.inl h)]
  unfold Char.ofNatAux Char.toNat
  simp [UInt32.toNat, UInt32.ofNatCore]

theorem isWordChar_lowerChar (c : Char) :
    isWordChar (lowerChar c) = isWordChar c := by
  unfold lowerChar
  by_cases h : (decide ('A' ≤ c) && decide (c ≤ 'Z')) = true
  · rw [if_pos h]
    obtain ⟨hA, hZ⟩ := Bool.and_eq_true_iff.mp h
    have hA2 : 'A' ≤ c := of_decide_eq_true hA
    have hZ2 : c ≤ 'Z' := of_decide_eq_true hZ
    have h65 : 65 ≤ c.toNat := UInt32.le_def.mp (Char.le_def.mp hA2)
    have h90 : c.toNat ≤ 90 := UInt32.le_def.mp (Char.le_def.mp hZ2)
    have hval : (Char.ofNat (c.toNat + 32)).toNat = c.toNat + 32 :=
      ofNat_toNat_lt _ (by omega)
    have ha : 'a' ≤ Char.ofNat (c.toNat + 32) := by
      apply Char.le_def.mpr
      apply UInt32.le_def.mpr
      show 97 ≤ (Char.ofNat (c.toNat + 32)).toNat
      omega
    have hz : Char.ofNat (c.toNat + 32) ≤ 'z' := by
      apply Char.le_def.mpr
      apply UInt32.le_def.mpr
      show (Char.ofNat (c.toNat + 32)).toNat ≤ 122
      omega
    unfold isWordChar isAsciiLetter
    simp [decide_eq_true ha, decide_eq_true hz, decide_eq_true hA2,
      decide_eq_true hZ2]
  · rw [if_neg h]

theorem matchCI_lower (ks : List Char) :
    ∀ cs cs', cs.map lowerChar = cs'.map lowerChar →
      Option.map (List.map lowerChar) (matchCI ks cs) =
        Option.map (List.map lowerChar) (matchCI ks cs') := by
  induction ks with
  | nil =>
    intro cs cs' h
    unfold matchCI
    simp [h]
  | cons k ks ih =>
    intro cs cs' h
    cases cs with
    | nil =>
      cases cs' with
      | nil => rfl
      | cons c' cs2 => exact absurd h (by simp)
    | cons c cs1 =>
      cases cs' with
      | nil => exact absurd h (by simp)
      | cons c' cs2 =>
        simp only [List.map_cons, List.cons.injEq] at h
        obtain ⟨hc, ht⟩ := h
        unfold matchCI
        rw [hc]
        by_cases hk : (lowerChar c' == lowerChar k) = true
        · rw [if_pos hk, if_pos hk]
          exact ih cs1 cs2 ht
        · rw [if_neg hk, if_neg hk]

theorem keywordMatch_lower (kw : String) (cs cs' : List Char)
    (h : cs.map lowerChar = cs'.map lowerChar) :
    keywordMatch kw cs = keywordMatch kw cs' := by
  unfold keywordMatch
  have hm := matchCI_lower kw.data cs cs' h
  cases h1 : matchCI kw.data cs with
  | none =>
    cases h2 : matchCI kw.data cs' with
    | none => rfl
    | some r2 => rw [h1, h2] at hm; simp at hm
  | some r =>
    cases h2 : matchCI kw.data cs' with
    | none => rw [h1, h2] at hm; simp at hm
    | some r2 =>
      rw [h1, h2] at hm
      simp only [Option.map_some'] at hm
      have heq := Option.some.inj hm
      have hend : atWordEnd r = atWordEnd r2 := by
        cases r with
        | nil =>
          cases r2 with
          | nil => rfl
          | cons a b => simp at heq
        | cons a b =>
          cases r2 with
          | nil => simp at heq
          | cons a2 b2 =>
            simp only [List.map_cons, List.cons.injEq] at heq
            have hW : isWordChar a = isWordChar a2 := by
              rw [← isWordChar_lowerChar a, ← isWordChar_lowerChar a2, heq.1]
            simp [atWordEnd, hW]
      dsimp only
      rw [hend]

theorem keywordScan_lower (rules : List (String × TokKind)) (cs cs' : List Char)
    (h : cs.map lowerChar = cs'.map lowerChar) :
    keywordScan rules cs = keywordScan rules cs' := by
  induction rules with
  | nil => rfl
  | cons r rest ih =>
    obtain ⟨kw, k⟩ := r
    unfold keywordScan
    rw [keywordMatch_lower kw cs cs' h, ih]

/-- C4 (amended): lexing of keywords and the built-in/row namespaces are
case-insensitive — keyword rule scanning is invariant under ASCII case
changes of the input, evaluating a name node depends only on the lowercased
name, and `FUNCTIONS` lookups depend only on the lowercased key — but query
evaluation is *not* case-invariant: the GROUP BY legality check compares
select expressions to group expressions with case-sensitive node equality,
so `NAME` vs `name` differ there even though they lowercase identically. -/
theorem case_insensitivity_scope (s t : String) (ctx : Ctx) (st : AggStore)
    (cs cs' : List Char) :
    (cs.map lowerChar = cs'.map lowerChar →
      keywordScan KEYWORDS cs = keywordScan KEYWORDS cs') ∧
    (lowerStr s = lowerStr t →
      evalNode (.nameN s) ctx st = evalNode (.nameN t) ctx st) ∧
    (lowerStr s = lowerStr t → FUNCTIONS_lookup s = FUNCTIONS_lookup t) ∧
    nodeEq (.nameN "NAME") (.nameN "name") = false ∧
    lowerStr "NAME" = lowerStr "name" := by
  refine ⟨keywordScan_lower KEYWORDS cs cs', ?_, ?_, rfl, rfl⟩
  · intro h
    unfold evalNode ctxLookup
    rw [h]
  · intro h
    unfold FUNCTIONS_lookup
    rw [h]

/-- Witness for the C4 amended theorem at concrete case variants. -/
theorem case_insensitivity_scope_witness :
    keywordScan KEYWORDS "SeLeCt".data = keywordScan KEYWORDS "select".data ∧
    evalNode (.nameN "NaMe") [("name", .str "a")] [] =
      evalNode (.nameN "name") [("name", .str "a")] [] ∧
    FUNCTIONS_lookup "LeNgTh" = FUNCTIONS_lookup "length" := by
  have h := case_insensitivity_scope "NaMe" "name" [("name", .str "a")] []
      "SeLeCt".data "select".data
  have h2 := case_insensitivity_scope "LeNgTh" "length" [] [] [] []
  exact ⟨h.1 (by rfl), h.2.1 (by rfl), h2.2.2.1 (by rfl)⟩

/-- C4 counterexample: the same query and data evaluate differently when only
the letter case of a grouped column reference changes — `select NAME group by
name` is rejected as an illegal GROUP BY while the uniformly-cased query
succeeds. -/
theorem name_case_group_cex :
    ∃ q1 q2 t,
      parseLsql "select name group by name" = .ok q1 ∧
      parseLsql "select NAME group by name" = .ok q2 ∧
      evalQuery q1 [[("name", .str "a")]] [("cwd", .str ".")] = .ok t ∧
      evalQuery q2 [[("name", .str "a")]] [("cwd", .str ".")] =
        .error .illegalGroupBy :=
  ⟨_, _, _, rfl, rfl, rfl, rfl⟩

/-! ## C8: BETWEEN binding powers -/

/-- C8 counterexample: in `select 1 between 0 and 2 and 3` the second AND is
absorbed into the upper bound (the result is `1 BETWEEN 0 AND (2 AND 3)`),
not left outside the BETWEEN as the claim predicts. -/
theorem between_absorbs_and_cex :
    ∃ q, parseLsql "select 1 between 0 and 2 and 3" = .ok q ∧
      q.selectQ = .selectN [.betweenN (.valueN (.int 1)) (.valueN (.int 0))
        (.andN (.valueN (.int 2)) (.valueN (.int 3)))] ∧
      q.selectQ ≠ .selectN [.andN (.betweenN (.valueN (.int 1))
        (.valueN (.int 0)) (.valueN (.int 2))) (.valueN (.int 3))] :=
  ⟨_, rfl, rfl, by
    intro h
    have h2 : (Node.selectN [.betweenN (.valueN (.int 1)) (.valueN (.int 0))
        (.andN (.valueN (.int 2)) (.valueN (.int 3)))]) =
        .selectN [.andN (.betweenN (.valueN (.int 1)) (.valueN (.int 0))
          (.valueN (.int 2))) (.valueN (.int 3))] := h
    simp at h2⟩

/-- C8 (amended): `BetweenToken.suffix` parses the *lower* bound with
BETWEEN's right binding power 600 (so the delimiter AND is not absorbed into
it, and a lower-binding operator there is a parse error), consumes AND as a
fixed delimiter, and parses the *upper* bound with binding power 0, so a
following AND (binding power 200) is absorbed into the upper bound. -/
theorem between_binding :
    rightBp .betweenKw = some 600 ∧
    rightBp .andKw = some 200 ∧
    (∃ q, parseLsql "select 1 between 0 and 2" = .ok q ∧
      q.selectQ = .selectN [.betweenN (.valueN (.int 1)) (.valueN (.int 0))
        (.valueN (.int 2))]) ∧
    (∃ q, parseLsql "select 1 between 0 and 2 and 3" = .ok q ∧
      q.selectQ = .selectN [.betweenN (.valueN (.int 1)) (.valueN (.int 0))
        (.andN (.valueN (.int 2)) (.valueN (.int 3)))]) ∧
    parseLsql "select 1 between 0 or 1 and 2" =
      .error (.parseE (.unexpectedToken .orKw)) :=
  ⟨rfl, rfl, ⟨_, rfl, rfl⟩, ⟨_, rfl, rfl⟩, rfl⟩

end Lsql
